import Mathlib

/-!
Verification of the dependency-graph cache of `github-pullrequestd`
(`src/app.go`), as a shallow embedding in Lean 4.

Go maps are embedded as association lists (`GMap`): `mget` reads the first
entry with the given key, `mset` replaces it in place (appending when the key
is absent) and `mdel` removes every entry with the key — on maps built by
these operations each key occurs at most once, so this coincides with Go's
`m[k]`, `m[k] = v` and `delete(m, k)`.  Nested reads such as
`app.cache.Branches[r][n]` are nil-safe in Go (a missing outer key yields the
zero value, so the inner read just misses); `bget2`/`bget3` chain `Option` the
same way.
-/

/-- Association-list embedding of a Go `map[α]β`. -/
abbrev GMap (α β : Type) := List (α × β)

/-- Go `v, ok := m[k]` (the `Option` carries `ok`). -/
def mget {α β : Type} [DecidableEq α] : GMap α β → α → Option β
  | [], _ => none
  | (k', v) :: t, k => if k = k' then some v else mget t k

/-- Go `m[k] = v`: replace the entry in place, or append a fresh one. -/
def mset {α β : Type} [DecidableEq α] : GMap α β → α → β → GMap α β
  | [], k, v => [(k, v)]
  | (k', v') :: t, k, v => if k = k' then (k, v) :: t else (k', v') :: mset t k v

/-- Go `delete(m, k)`. -/
def mdel {α β : Type} [DecidableEq α] : GMap α β → α → GMap α β
  | [], _ => []
  | (k', v') :: t, k => if k' = k then mdel t k else (k', v') :: mdel t k

theorem mget_mset {α β : Type} [DecidableEq α] (m : GMap α β) (k k' : α) (v : β) :
    mget (mset m k v) k' = if k' = k then some v else mget m k' := by
  induction m with
  | nil =>
    by_cases h : k' = k <;> simp [mset, mget, h]
  | cons p t ih =>
    obtain ⟨k1, v1⟩ := p
    by_cases h1 : k = k1
    · subst h1
      by_cases h2 : k' = k <;> simp [mset, mget, h2]
    · by_cases h2 : k' = k1
      · subst h2
        simp [mset, mget, h1, Ne.symm h1]
      · simp [mset, mget, h1, h2, ih]

theorem mget_mdel {α β : Type} [DecidableEq α] (m : GMap α β) (k k' : α) :
    mget (mdel m k) k' = if k' = k then none else mget m k' := by
  induction m with
  | nil =>
    by_cases h : k' = k <;> simp [mdel, mget, h]
  | cons p t ih =>
    obtain ⟨k1, v1⟩ := p
    by_cases h1 : k1 = k
    · subst h1
      rw [mdel, if_pos rfl, ih]
      by_cases h2 : k' = k1 <;> simp [mget, h2]
    · by_cases h2 : k' = k1
      · subst h2
        rw [mdel, if_neg h1]
        simp [mget, ih, h1]
      · rw [mdel, if_neg h1]
        simp [mget, h2, ih]

theorem mget_mem {α β : Type} [DecidableEq α] {m : GMap α β} {k : α} {v : β}
    (h : mget m k = some v) : (k, v) ∈ m := by
  induction m with
  | nil => simp [mget] at h
  | cons p t ih =>
    obtain ⟨k1, v1⟩ := p
    by_cases hk : k = k1
    · subst hk
      rw [mget, if_pos rfl] at h
      simp at h
      simp [h]
    · rw [mget, if_neg hk] at h
      simp [ih h]

/-- Nil-safe double read, Go `m[r][n]`. -/
def bget2 {α γ β : Type} [DecidableEq α] [DecidableEq γ]
    (m : GMap α (GMap γ β)) (r : α) (n : γ) : Option β :=
  (mget m r).bind fun mm => mget mm n

/-- Nil-safe triple read, Go `m[r][n][k]`. -/
def bget3 {α γ δ β : Type} [DecidableEq α] [DecidableEq γ] [DecidableEq δ]
    (m : GMap α (GMap γ (GMap δ β))) (r : α) (n : γ) (k : δ) : Option β :=
  (bget2 m r n).bind fun mm => mget mm k

/-- Go `delete(m[r], n)` (a no-op when `m[r]` is missing, as `delete` on a
nil map is). -/
def mdel2 {α γ β : Type} [DecidableEq α] [DecidableEq γ]
    (m : GMap α (GMap γ β)) (r : α) (n : γ) : GMap α (GMap γ β) :=
  match mget m r with
  | none => m
  | some mm => mset m r (mdel mm n)

/-- Go `delete(m[r][n], k)` (a no-op when either level is missing). -/
def mdel3 {α γ δ β : Type} [DecidableEq α] [DecidableEq γ] [DecidableEq δ]
    (m : GMap α (GMap γ (GMap δ β))) (r : α) (n : γ) (k : δ) :
    GMap α (GMap γ (GMap δ β)) :=
  match mget m r with
  | none => m
  | some mm =>
    match mget mm n with
    | none => m
    | some inner => mset m r (mset mm n (mdel inner k))

/-- Net effect of Go's guarded two-level write: ensure `m[r]` exists
(creating an empty inner map), then `m[r][n] = v`. -/
def bset2 {α γ β : Type} [DecidableEq α] [DecidableEq γ]
    (m : GMap α (GMap γ β)) (r : α) (n : γ) (v : β) : GMap α (GMap γ β) :=
  mset m r (mset ((mget m r).getD []) n v)

/-- Net effect of Go's guarded three-level write: ensure `m[r]` and `m[r][n]`
exist, then `m[r][n][k] = v`. -/
def bset3 {α γ δ β : Type} [DecidableEq α] [DecidableEq γ] [DecidableEq δ]
    (m : GMap α (GMap γ (GMap δ β))) (r : α) (n : γ) (k : δ) (v : β) :
    GMap α (GMap γ (GMap δ β)) :=
  mset m r (mset ((mget m r).getD []) n (mset ((mget ((mget m r).getD []) n).getD []) k v))

theorem bget2_mdel2 {α γ β : Type} [DecidableEq α] [DecidableEq γ]
    (m : GMap α (GMap γ β)) (r r' : α) (n n' : γ) :
    bget2 (mdel2 m r n) r' n' = if r' = r ∧ n' = n then none else bget2 m r' n' := by
  by_cases h1 : r' = r
  · subst h1
    cases hmr : mget m r' with
    | none =>
      by_cases h2 : n' = n <;> simp [mdel2, bget2, hmr, h2]
    | some mm =>
      by_cases h2 : n' = n <;>
        simp [mdel2, bget2, hmr, mget_mset, mget_mdel, h2]
  · cases hmr : mget m r with
    | none => simp [mdel2, bget2, hmr, h1]
    | some mm => simp [mdel2, bget2, hmr, mget_mset, h1]

theorem bget2_bset2 {α γ β : Type} [DecidableEq α] [DecidableEq γ]
    (m : GMap α (GMap γ β)) (r r' : α) (n n' : γ) (v : β) :
    bget2 (bset2 m r n v) r' n' = if r' = r ∧ n' = n then some v else bget2 m r' n' := by
  by_cases h1 : r' = r
  · subst h1
    cases hmr : mget m r' with
    | none =>
      by_cases h2 : n' = n <;> simp [bset2, bget2, hmr, mget_mset, mget, h2]
    | some mm =>
      by_cases h2 : n' = n <;> simp [bset2, bget2, hmr, mget_mset, h2]
  · simp [bset2, bget2, mget_mset, h1]

theorem bget3_mdel3 {α γ δ β : Type} [DecidableEq α] [DecidableEq γ] [DecidableEq δ]
    (m : GMap α (GMap γ (GMap δ β))) (r r' : α) (n n' : γ) (k k' : δ) :
    bget3 (mdel3 m r n k) r' n' k' =
      if r' = r ∧ n' = n ∧ k' = k then none else bget3 m r' n' k' := by
  by_cases h1 : r' = r
  · subst h1
    cases hmr : mget m r' with
    | none =>
      by_cases h2 : n' = n <;> simp [mdel3, bget3, bget2, hmr, h2]
    | some mm =>
      cases hmn : mget mm n with
      | none =>
        by_cases h2 : n' = n
        · subst h2
          simp [mdel3, bget3, bget2, hmr, hmn]
        · simp [mdel3, bget3, bget2, hmr, hmn, h2]
      | some inner =>
        by_cases h2 : n' = n
        · subst h2
          by_cases h3 : k' = k <;>
            simp [mdel3, bget3, bget2, hmr, hmn, mget_mset, mget_mdel, h3]
        · simp [mdel3, bget3, bget2, hmr, hmn, mget_mset, h2]
  · cases hmr : mget m r with
    | none => simp [mdel3, bget3, bget2, hmr, h1]
    | some mm =>
      cases hmn : mget mm n with
      | none => simp [mdel3, bget3, bget2, hmr, hmn, h1]
      | some inner => simp [mdel3, bget3, bget2, hmr, hmn, mget_mset, h1]

/-- `mdel3` only shaves an inner entry: every two-level read is preserved
except that the `(r, n)` inner map loses key `k`. -/
theorem bget2_mdel3 {α γ δ β : Type} [DecidableEq α] [DecidableEq γ] [DecidableEq δ]
    (m : GMap α (GMap γ (GMap δ β))) (r r' : α) (n n' : γ) (k : δ) :
    bget2 (mdel3 m r n k) r' n' =
      if r' = r ∧ n' = n then (bget2 m r n).map (fun inner => mdel inner k)
      else bget2 m r' n' := by
  by_cases h1 : r' = r
  · subst h1
    cases hmr : mget m r' with
    | none =>
      by_cases h2 : n' = n <;> simp [mdel3, bget2, hmr, h2]
    | some mm =>
      cases hmn : mget mm n with
      | none =>
        by_cases h2 : n' = n
        · subst h2
          simp [mdel3, bget2, hmr, hmn]
        · simp [mdel3, bget2, hmr, hmn, h2]
      | some inner =>
        by_cases h2 : n' = n
        · subst h2
          simp [mdel3, bget2, hmr, hmn, mget_mset]
        · simp [mdel3, bget2, hmr, hmn, mget_mset, h2]
  · cases hmr : mget m r with
    | none => simp [mdel3, bget2, hmr, h1]
    | some mm =>
      cases hmn : mget mm n with
      | none => simp [mdel3, bget2, hmr, hmn, h1]
      | some inner => simp [mdel3, bget2, hmr, hmn, mget_mset, h1]

theorem bget3_bset3 {α γ δ β : Type} [DecidableEq α] [DecidableEq γ] [DecidableEq δ]
    (m : GMap α (GMap γ (GMap δ β))) (r r' : α) (n n' : γ) (k k' : δ) (v : β) :
    bget3 (bset3 m r n k v) r' n' k' =
      if r' = r ∧ n' = n ∧ k' = k then some v else bget3 m r' n' k' := by
  by_cases h1 : r' = r
  · subst h1
    cases hmr : mget m r' with
    | none =>
      by_cases h2 : n' = n
      · subst h2
        by_cases h3 : k' = k <;>
          simp [bset3, bget3, bget2, hmr, mget_mset, mget, h3]
      · simp [bset3, bget3, bget2, hmr, mget_mset, mget, h2]
    | some mm =>
      cases hmn : mget mm n with
      | none =>
        by_cases h2 : n' = n
        · subst h2
          by_cases h3 : k' = k <;>
            simp [bset3, bget3, bget2, hmr, hmn, mget_mset, mget, h3]
        · simp [bset3, bget3, bget2, hmr, hmn, mget_mset, h2]
      | some inner =>
        by_cases h2 : n' = n
        · subst h2
          by_cases h3 : k' = k <;>
            simp [bset3, bget3, bget2, hmr, hmn, mget_mset, h3]
        · simp [bset3, bget3, bget2, hmr, hmn, mget_mset, h2]
  · simp [bset3, bget3, bget2, mget_mset, h1]

theorem bget2_bset3_isSome {α γ δ β : Type} [DecidableEq α] [DecidableEq γ] [DecidableEq δ]
    (m : GMap α (GMap γ (GMap δ β))) (r r' : α) (n n' : γ) (k : δ) (v : β) :
    (bget2 (bset3 m r n k v) r' n').isSome =
      if r' = r ∧ n' = n then true else (bget2 m r' n').isSome := by
  by_cases h1 : r' = r
  · subst h1
    cases hmr : mget m r' with
    | none =>
      by_cases h2 : n' = n <;> simp [bset3, bget2, hmr, mget_mset, mget, h2]
    | some mm =>
      by_cases h2 : n' = n <;> simp [bset3, bget2, hmr, mget_mset, h2]
  · simp [bset3, bget2, mget_mset, h1]

/-- Value-equality of two Go maps, `reflect.DeepEqual` on non-nil maps:
same key set, same values. -/
def mapEquiv {α β : Type} [DecidableEq α] [DecidableEq β] (a b : GMap α β) : Bool :=
  (a.all fun p => mget a p.1 == mget b p.1) && (b.all fun p => mget a p.1 == mget b p.1)

theorem mapEquiv_iff {α β : Type} [DecidableEq α] [DecidableEq β] (a b : GMap α β) :
    mapEquiv a b = true ↔ ∀ k, mget a k = mget b k := by
  constructor
  · rintro h k
    simp only [mapEquiv, Bool.and_eq_true, List.all_eq_true, beq_iff_eq] at h
    obtain ⟨ha, hb⟩ := h
    cases hak : mget a k with
    | none =>
      cases hbk : mget b k with
      | none => rfl
      | some v =>
        have := hb (k, v) (mget_mem hbk)
        rw [hak] at this
        rw [hbk] at this
        exact absurd this (by simp)
    | some v =>
      have := ha (k, v) (mget_mem hak)
      rw [hak] at this
      rw [this]
  · intro h
    simp only [mapEquiv, Bool.and_eq_true, List.all_eq_true, beq_iff_eq]
    exact ⟨fun p _ => h p.1, fun p _ => h p.1⟩

theorem mapEquiv_refl {α β : Type} [DecidableEq α] [DecidableEq β] (a : GMap α β) :
    mapEquiv a a = true := by
  rw [mapEquiv_iff]
  intro k
  rfl

/-! ## Token parsing (Go `strings.Split(dep, "#")` and `strconv.Atoi`) -/

/-- Accumulator-passing splitter behind `splitHash`. -/
def splitHashAux : List Char → List Char → List String
  | [], acc => [String.mk acc.reverse]
  | c :: rest, acc =>
    if c = '#' then String.mk acc.reverse :: splitHashAux rest []
    else splitHashAux rest (c :: acc)

/-- Go `strings.Split(s, "#")`: the fields of `s` around every `'#'`;
always at least one field, exactly one more field than separators. -/
def splitHash (s : String) : List String :=
  splitHashAux s.toList []

/-- Digit run to a number, most significant first. -/
def digitsToNat (ds : List Char) : Nat :=
  ds.foldl (fun a c => a * 10 + (c.toNat - 48)) 0

/-- Go `strconv.Atoi`: an optional single sign, then one or more ASCII
digits making up the whole string, rejected when the value overflows a
64-bit int (`ErrRange` also makes `err != nil`). -/
def goAtoi (s : String) : Option Int :=
  let p : Bool × List Char :=
    match s.toList with
    | '-' :: t => (true, t)
    | '+' :: t => (false, t)
    | t => (false, t)
  if p.2 = [] then none
  else if p.2.all Char.isDigit then
    let v : Int := Int.ofNat (digitsToNat p.2)
    let v := if p.1 then -v else v
    if v < -(2 ^ 63) ∨ 2 ^ 63 - 1 < v then none else some v
  else none

/-- The `(vals[0], Atoi vals[1])` extraction both token loops perform:
`none` when the token has no `'#'` at all (in Go, `vals[1]` is then an
out-of-bounds access and the program panics), `some none` when the suffix is
not numeric (`err != nil`, token silently skipped), `some (some (t, i))` for
a well-formed token. -/
def parseToken (dep : String) : Option (Option (String × Int)) :=
  match (splitHash dep)[1]? with
  | none => none
  | some v1 =>
    match goAtoi v1 with
    | none => some none
    | some i => some (some ((splitHash dep).headD "", i))

/-- A token the code silently drops: it has a `'#'` but its `vals[1]` field
is not numeric. -/
def malformedToken (dep : String) : Bool :=
  match (splitHash dep)[1]? with
  | none => false
  | some v1 => (goAtoi v1).isNone

/-! ## The cache (`Cache` struct) and the Cache Update Engine
(`updateCache`, src/app.go lines 104-255) -/

/-- The `Cache` struct: `Branches` is the BranchIndex, `Dependencies` the
forward edges `[repo][num][targetRepo] = targetNum`, `Dependents` the
reverse edges `[targetRepo][targetNum][depRepo] = depNum`. -/
structure Cache where
  Branches : GMap String (GMap Int String)
  Dependencies : GMap String (GMap Int (GMap String Int))
  Dependents : GMap String (GMap Int (GMap String Int))
  Version : String
  deriving DecidableEq

/-- The cache `App.Run` starts from. -/
def emptyCache : Cache :=
  { Branches := [], Dependencies := [], Dependents := [], Version := "1" }

/-- `action == "opened" || action == "edited" || action == "reopened"`. -/
def oerAction (action : String) : Bool :=
  action == "opened" || action == "edited" || action == "reopened"

/-- One pass of the cleanup loop over `depsBefore`
(src/app.go lines 154-172): drop the reverse entry of the old edge, and
garbage-collect the old target's own entries when its branch is gone. -/
def cleanupBefore (repo : String) (c : Cache) (p : String × Int) : Cache :=
  let r := p.1
  let n := p.2
  let c :=
    if (bget3 c.Dependents r n repo).isSome then
      { c with Dependents := mdel3 c.Dependents r n repo }
    else c
  if (bget2 c.Branches r n).isSome then c
  else
    let c :=
      if (bget2 c.Dependencies r n).isSome then
        { c with Dependencies := mdel2 c.Dependencies r n }
      else c
    if (bget2 c.Dependents r n).isSome then
      { c with Dependents := mdel2 c.Dependents r n }
    else c

/-- One pass of the `depsAfter` loop for opened/edited/reopened
(src/app.go lines 175-208).  `none` models the `vals[1]` out-of-bounds
panic on a token with no `'#'`. -/
def addDep (action repo : String) (num : Int) (c : Cache) (dep : String) :
    Option Cache :=
  match parseToken dep with
  | none => none
  | some none => some c
  | some (some (t, i)) =>
    if (bget2 c.Branches t i).isSome then
      if oerAction action then
        -- app.cache.Dependencies[repo][num][vals[0]] = i  (line 193);
        -- both levels are present here: the outer map is ensured at line 147
        -- and the inner map set at line 151, and neither is removed earlier
        -- in this event (removals need Branches[repo][num] to be absent,
        -- which the branch step just made impossible)
        let deps :=
          match mget c.Dependencies repo with
          | none => c.Dependencies
          | some m1 =>
            match mget m1 num with
            | none => c.Dependencies
            | some m2 => mset c.Dependencies repo (mset m1 num (mset m2 t i))
        let c := { c with Dependencies := deps }
        -- lines 196-204: ensure Dependents[t] and Dependents[t][i] exist,
        -- then Dependents[t][i][repo] = num
        some { c with Dependents := bset3 c.Dependents t i repo num }
      else some c
    else
      -- tidy up: the target's branch does not exist (lines 181-189)
      let c :=
        if (bget2 c.Dependencies t i).isSome then
          { c with Dependencies := mdel2 c.Dependencies t i }
        else c
      if (bget2 c.Dependents t i).isSome then
        some { c with Dependents := mdel2 c.Dependents t i }
      else some c

/-- The full `depsAfter` loop for opened/edited/reopened. -/
def addDeps (action repo : String) (num : Int) (c : Cache) :
    List String → Option Cache
  | [] => some c
  | dep :: rest =>
    match addDep action repo num c dep with
    | none => none
    | some c' => addDeps action repo num c' rest

/-- One pass of the `depsAfter` loop for closed (src/app.go lines 223-246):
drop this PR's reverse entry at the token's target, and garbage-collect the
target when its branch is gone. -/
def closedDep (repo : String) (num : Int) (c : Cache) (dep : String) :
    Option Cache :=
  match parseToken dep with
  | none => none
  | some none => some c
  | some (some (t, i)) =>
    let c :=
      if (bget3 c.Dependents t i repo).isSome then
        if bget3 c.Dependents t i repo = some num then
          { c with Dependents := mdel3 c.Dependents t i repo }
        else c
      else c
    if (bget2 c.Branches t i).isSome then some c
    else
      let c :=
        if (bget2 c.Dependencies t i).isSome then
          { c with Dependencies := mdel2 c.Dependencies t i }
        else c
      if (bget2 c.Dependents t i).isSome then
        some { c with Dependents := mdel2 c.Dependents t i }
      else some c

/-- The full `depsAfter` loop for closed. -/
def closedDeps (repo : String) (num : Int) (c : Cache) :
    List String → Option Cache
  | [] => some c
  | dep :: rest =>
    match closedDep repo num c dep with
    | none => none
    | some c' => closedDeps repo num c' rest

/-- The branch step of `updateCache` (src/app.go lines 110-125): set
`Branches[repo][num] = branch` for opened/edited/reopened, unset it (when
present) for closed. -/
def branchStep (action repo : String) (num : Int) (branch : String) (c : Cache) :
    Cache :=
  let c :=
    if oerAction action then
      { c with Branches := bset2 c.Branches repo num branch }
    else c
  if action == "closed" then
    if (bget2 c.Branches repo num).isSome then
      { c with Branches := mdel2 c.Branches repo num }
    else c
  else c

/-- Lines 145-151: ensure the outer `Dependencies[repo]` map exists and
reset `Dependencies[repo][num]` to an empty map. -/
def resetDeps (repo : String) (num : Int) (c : Cache) : Cache :=
  { c with Dependencies := bset2 c.Dependencies repo num [] }

/-- Lines 211-221: unset `Dependencies[repo][num]` and
`Dependents[repo][num]` when present. -/
def closedUnset (repo : String) (num : Int) (c : Cache) : Cache :=
  let c :=
    if (bget2 c.Dependencies repo num).isSome then
      { c with Dependencies := mdel2 c.Dependencies repo num }
    else c
  if (bget2 c.Dependents repo num).isSome then
    { c with Dependents := mdel2 c.Dependents repo num }
  else c

/-- Lines 250-254: whether `triggerPRJob` fires — `action == "edited"` and
`reflect.DeepEqual(depsBefore, app.cache.Dependencies[repo][num])` is
false.  `depsBefore` is always a non-nil map, and the live entry is nil
when absent, in which case `DeepEqual` is false. -/
def trigOf (action : String) (depsBefore : GMap String Int) (repo : String)
    (num : Int) (c : Cache) : Bool :=
  action == "edited" &&
    !(match bget2 c.Dependencies repo num with
      | none => false
      | some m => mapEquiv depsBefore m)

/-- `App.updateCache` (src/app.go lines 104-255).  The returned `Bool` is
whether `triggerPRJob(repo, num)` was invoked (line 252), which happens at
most once per call.  The result is `none` when Go panics on a dependency
token with no `'#'` (`vals[1]` out of range at lines 177/225); the cleanup
loop over the `depsBefore` map is iterated in storage order (its per-entry
actions touch disjoint keys, so Go's arbitrary map order yields the same
cache). -/
def updateCache (c : Cache) (action repo : String) (num : Int) (branch : String)
    (depsAfter : List String) (branchesOnly : Bool) : Option (Cache × Bool) :=
  let c := branchStep action repo num branch c
  if branchesOnly then some (c, false)
  else
    -- lines 133-142: copy of Dependencies[repo][num], empty when absent
    let depsBefore : GMap String Int := (bget2 c.Dependencies repo num).getD []
    let next : Option Cache :=
      if oerAction action then
        addDeps action repo num
          (depsBefore.foldl (cleanupBefore repo) (resetDeps repo num c)) depsAfter
      else if action == "closed" then
        closedDeps repo num (closedUnset repo num c) depsAfter
      else some c
    match next with
    | none => none
    | some c => some (c, trigOf action depsBefore repo num c)

/-! ## Event sequences and reachable cache states -/

/-- One `updateCache` call's arguments. -/
structure Ev where
  action : String
  repo : String
  num : Int
  branch : String
  deps : List String
  branchesOnly : Bool

/-- Run a list of events left to right; `none` as soon as one panics. -/
def runEventsFrom (c : Cache) : List Ev → Option Cache
  | [] => some c
  | e :: rest =>
    match updateCache c e.action e.repo e.num e.branch e.deps e.branchesOnly with
    | none => none
    | some (c', _) => runEventsFrom c' rest

/-- Cache states reachable from the empty cache by completed `updateCache`
calls (a panicking call kills the process, so it yields no new state). -/
inductive Reachable : Cache → Prop where
  | empty : Reachable emptyCache
  | step {c : Cache} {a r : String} {n : Int} {b : String} {deps : List String}
      {bo : Bool} {c' : Cache} {trig : Bool} :
      Reachable c → updateCache c a r n b deps bo = some (c', trig) →
      Reachable c'

theorem runEventsFrom_reachable {c : Cache} {evs : List Ev} {c' : Cache}
    (hc : Reachable c) (h : runEventsFrom c evs = some c') : Reachable c' := by
  induction evs generalizing c with
  | nil =>
    simp [runEventsFrom] at h
    rwa [h] at hc
  | cons e rest ih =>
    rw [runEventsFrom] at h
    cases hu : updateCache c e.action e.repo e.num e.branch e.deps e.branchesOnly with
    | none => rw [hu] at h; exact absurd h (by simp)
    | some p =>
      rw [hu] at h
      obtain ⟨c2, trig⟩ := p
      exact ih (Reachable.step hc hu) h

/-! ## Repository Filter (`checkIfRepoShouldBeIncluded`, src/app.go
lines 404-435) -/

/-- One repository rule from the configuration: a literal name, the
wildcard `"*"`, or (with `RegExp` set) a pattern. -/
structure Rule where
  Name : String
  RegExp : Bool

/-- Whether one rule matches a repository name, as both loops of
`checkIfRepoShouldBeIncluded` test it.  The pattern engine
(`regexp.MatchString`, whose error is discarded so a bad pattern just
fails to match) is abstracted as the `matcher` parameter. -/
def ruleMatches (matcher : String → String → Bool) (r : Rule) (repo : String) : Bool :=
  if !r.RegExp then (r.Name == "*" || r.Name == repo)
  else matcher r.Name repo

/-- The inclusion loop: first matching rule sets the flag and breaks. -/
def inclLoop (matcher : String → String → Bool) (repo : String) :
    List Rule → Bool → Bool
  | [], f => f
  | r :: rest, f =>
    if ruleMatches matcher r repo then true else inclLoop matcher repo rest f

/-- The exclusion loop: first matching rule clears the flag and breaks. -/
def exclLoop (matcher : String → String → Bool) (repo : String) :
    List Rule → Bool → Bool
  | [], f => f
  | r :: rest, f =>
    if ruleMatches matcher r repo then false else exclLoop matcher repo rest f

/-- `App.checkIfRepoShouldBeIncluded` (src/app.go lines 404-435). -/
def checkIfRepoShouldBeIncluded (matcher : String → String → Bool)
    (incl excl : List Rule) (repo : String) : Bool :=
  exclLoop matcher repo excl (inclLoop matcher repo incl false)

theorem inclLoop_eq_any (matcher : String → String → Bool) (repo : String)
    (rs : List Rule) (f : Bool) :
    inclLoop matcher repo rs f = (rs.any (fun r => ruleMatches matcher r repo) || f) := by
  induction rs with
  | nil => simp [inclLoop]
  | cons r rest ih =>
    by_cases h : ruleMatches matcher r repo = true
    · simp [inclLoop, h]
    · simp only [Bool.not_eq_true] at h
      simp [inclLoop, h, ih]

theorem exclLoop_eq_any (matcher : String → String → Bool) (repo : String)
    (rs : List Rule) (f : Bool) :
    exclLoop matcher repo rs f = (!rs.any (fun r => ruleMatches matcher r repo) && f) := by
  induction rs with
  | nil => simp [exclLoop]
  | cons r rest ih =>
    by_cases h : ruleMatches matcher r repo = true
    · simp [exclLoop, h]
    · simp only [Bool.not_eq_true] at h
      simp [exclLoop, h, ih]

/-! ## Job Trigger (`triggerPRJob` and `processJenkinsEndpointRetries`,
src/app.go lines 51-102) -/

/-- Outcome of the environment during one iteration of the retry loop:
crumb fetch failed, POST transport failed, HTTP status not the expected
one, or a validated success. -/
inductive IterOutcome where
  | crumbError
  | postError
  | badStatus
  | success
  deriving DecidableEq

/-- Whether an iteration reached the `return nil` at line 83. -/
def iterSucceeds : IterOutcome → Bool
  | .success => true
  | _ => false

/-- The retry loop body of `processJenkinsEndpointRetries`
(src/app.go lines 54-84) with `k` iterations left, current iteration
index `i`; each failed iteration sleeps and increments. -/
def retryN (env : Nat → IterOutcome) : Nat → Nat → Bool
  | _, 0 => false
  | i, k + 1 => if iterSucceeds (env i) then true else retryN env (i + 1) k

/-- `App.processJenkinsEndpointRetries` (src/app.go lines 51-87):
`true` for the `return nil` of a validated success, `false` for the
`errors.New("Unable to post ...")` after the iterations are exhausted
(or when `retryCount <= 0`).  The environment (Jenkins crumb endpoint,
POST transport, HTTP status check) is abstracted as `env`. -/
def processJenkinsEndpointRetries (env : Nat → IterOutcome) (retryCount : Int) : Bool :=
  if 0 < retryCount then retryN env 0 retryCount.toNat else false

/-- One configured Jenkins endpoint as `triggerPRJob` consumes it.
Modelled from the spec: the `JenkinsEndpoint` definition and its
`GetRetryDelay` / `GetRetryCount` accessors live in configuration code not
included under src/; per the spec, each reads that endpoint's retry delay
or retry count from configuration and fails when it is malformed, so each
is embedded as an `Option Int` (`none` = malformed). -/
structure JenkinsEndpoint where
  Path : String
  retryDelay : Option Int
  retryCount : Option Int

/-- `App.triggerPRJob` (src/app.go lines 89-102).  Its observable
behaviour is the ordered list of endpoints actually processed, each with
the success of its retry loop; a failed `GetRetryDelay`/`GetRetryCount`
breaks out of the loop over endpoints. -/
def triggerPRJob (envOf : JenkinsEndpoint → Nat → IterOutcome) :
    List JenkinsEndpoint → List (String × Bool)
  | [] => []
  | e :: rest =>
    match e.retryDelay with
    | none => []
    | some _ =>
      match e.retryCount with
      | none => []
      | some rc =>
        (e.Path, processJenkinsEndpointRetries (envOf e) rc) :: triggerPRJob envOf rest

theorem parseToken_eq_none_iff (d : String) :
    parseToken d = none ↔ (splitHash d)[1]? = none := by
  unfold parseToken
  cases h : (splitHash d)[1]? with
  | none => simp
  | some v1 => cases hg : goAtoi v1 <;> simp [hg]

/-- Bool test of the claimed transpose relation between the two edge
indices at one index tuple. -/
def transposeAt (c : Cache) (repo : String) (num : Int) (tR : String) (tN : Int) :
    Bool :=
  decide (bget3 c.Dependents tR tN repo = some num) ==
    decide (bget3 c.Dependencies repo num tR = some tN)

/-- C1: the claimed reverse-index consistency invariant is violated in a
reachable state.  After `opened lib#5`, `opened svc#1 [lib#5]`,
`opened svc#2 [lib#5]`, the reverse entry `Dependents["lib"][5]["svc"]`
was overwritten to `2`, while `Dependencies["svc"][1]["lib"] == 5` still
holds — so the claimed iff fails at `(repo, num, tRepo, tNum) =
("svc", 1, "lib", 5)`: the inner map of `Dependents` can keep only one
dependent per dependent-repository, and line 204 silently overwrites the
previous one. -/
theorem updateCache_reverse_index_violation :
    (runEventsFrom emptyCache
      [⟨"opened", "lib", 5, "b1", [], false⟩,
       ⟨"opened", "svc", 1, "b2", ["lib#5"], false⟩,
       ⟨"opened", "svc", 2, "b3", ["lib#5"], false⟩]).map
      (fun c => (transposeAt c "svc" 1 "lib" 5,
                 bget3 c.Dependencies "svc" 1 "lib",
                 bget3 c.Dependents "lib" 5 "svc"))
      = some (false, some 5, some 2) := by decide

/-- C2 (counterexample): the claimed referential integrity does not hold
in every reachable state.  After `opened lib#5`, `opened svc#1 [lib#5]`,
`closed lib#5 []`, the inner target entry
`Dependencies["svc"][1]["lib"] == 5` survives although
`BranchIndex["lib"][5]` is gone (the dangling edge is only purged by the
next update that touches it). -/
theorem updateCache_referential_integrity_counterexample :
    (runEventsFrom emptyCache
      [⟨"opened", "lib", 5, "b1", [], false⟩,
       ⟨"opened", "svc", 1, "b2", ["lib#5"], false⟩,
       ⟨"closed", "lib", 5, "b1", [], false⟩]).map
      (fun c => (bget3 c.Dependencies "svc" 1 "lib",
                 (bget2 c.Branches "lib" 5).isSome))
      = some (some 5, false) := by decide

/-- C5 (counterexample): with two parsable tokens sharing the target
repository, the claim fails.  After `opened lib#5`, `opened lib#6`,
`opened svc#1 ["lib#5", "lib#6"]`, token `lib#5` is parsable and
`BranchIndex["lib"][5]` is present, yet
`DependencyEdges["svc"][1]["lib"]` is `6`, not `5` (the later token
overwrote it), and the claim also leaves the stale reverse entry
`Dependents["lib"][5]["svc"] == 1` in place. -/
theorem updateCache_stale_target_counterexample :
    (runEventsFrom emptyCache
      [⟨"opened", "lib", 5, "b1", [], false⟩,
       ⟨"opened", "lib", 6, "b1", [], false⟩,
       ⟨"opened", "svc", 1, "b2", ["lib#5", "lib#6"], false⟩]).map
      (fun c => ((bget2 c.Branches "lib" 5).isSome,
                 bget3 c.Dependencies "svc" 1 "lib",
                 bget3 c.Dependents "lib" 5 "svc"))
      = some (true, some 6, some 1) := by decide

/-- C10 (counterexample): a dependency token with no `'#'` makes
`updateCache` access `vals[1]` out of bounds (a Go panic, `none` in the
embedding), so the call does not complete normally. -/
theorem updateCache_no_separator_panics :
    updateCache emptyCache "opened" "svc" 1 "b" ["nohash"] false = none := by
  decide

/-- C6: `checkIfRepoShouldBeIncluded` returns true exactly when some
inclusion rule (literal, wildcard `"*"`, or pattern; first match wins, and
with a Boolean result first-match is equivalent to existence of a match)
matches the repository name and no exclusion rule matches it; in
particular a name matching both an inclusion and an exclusion rule yields
false, and a name matching no inclusion rule yields false regardless of
the exclusion rules. -/
theorem checkIfRepoShouldBeIncluded_iff (matcher : String → String → Bool)
    (incl excl : List Rule) (repo : String) :
    checkIfRepoShouldBeIncluded matcher incl excl repo = true ↔
      ((∃ r ∈ incl, ruleMatches matcher r repo = true) ∧
        ∀ r ∈ excl, ruleMatches matcher r repo = false) := by
  unfold checkIfRepoShouldBeIncluded
  rw [exclLoop_eq_any, inclLoop_eq_any]
  simp only [Bool.or_false, Bool.and_eq_true, Bool.not_eq_true',
    List.any_eq_true, List.any_eq_false, Bool.not_eq_true]
  constructor
  · rintro ⟨hexcl, hincl⟩
    exact ⟨hincl, fun r hr => by simpa using hexcl r hr⟩
  · rintro ⟨hincl, hexcl⟩
    exact ⟨fun r hr => by simpa using hexcl r hr, hincl⟩

/-- C7: `triggerPRJob` processes endpoints in declared order; a failed
retry-delay or retry-count lookup aborts that endpoint and all remaining
ones (the processed list is cut at the first endpoint with a malformed
configuration), while an endpoint whose retry loop is exhausted without a
validated success (`processJenkinsEndpointRetries` = false) merely records
its failure and processing continues with the next endpoint. -/
theorem triggerPRJob_endpoint_iteration
    (envOf : JenkinsEndpoint → Nat → IterOutcome) (eps : List JenkinsEndpoint) :
    triggerPRJob envOf eps =
      (eps.takeWhile fun e => e.retryDelay.isSome && e.retryCount.isSome).map
        (fun e => (e.Path, processJenkinsEndpointRetries (envOf e) (e.retryCount.getD 0))) := by
  induction eps with
  | nil => rfl
  | cons e rest ih =>
    cases hd : e.retryDelay with
    | none => simp [triggerPRJob, List.takeWhile_cons, hd]
    | some d =>
      cases hc : e.retryCount with
      | none => simp [triggerPRJob, List.takeWhile_cons, hd, hc]
      | some rc => simp [triggerPRJob, List.takeWhile_cons, hd, hc, ih]

/-! ## Stage lemmas for `updateCache` -/

theorem bget2_bset3 {α γ δ β : Type} [DecidableEq α] [DecidableEq γ] [DecidableEq δ]
    (m : GMap α (GMap γ (GMap δ β))) (r r' : α) (n n' : γ) (k : δ) (v : β) :
    bget2 (bset3 m r n k v) r' n' =
      if r' = r ∧ n' = n then some (mset ((bget2 m r n).getD []) k v)
      else bget2 m r' n' := by
  by_cases h1 : r' = r
  · subst h1
    cases hmr : mget m r' with
    | none =>
      by_cases h2 : n' = n <;> simp [bset3, bget2, hmr, mget_mset, mget, h2]
    | some mm =>
      by_cases h2 : n' = n <;> simp [bset3, bget2, hmr, mget_mset, h2]
  · simp [bset3, bget2, mget_mset, h1]

theorem oerAction_ne_closed {a : String} (h : oerAction a = true) :
    (a == "closed") = false := by
  by_contra hc
  simp only [Bool.not_eq_false, beq_iff_eq] at hc
  subst hc
  exact absurd h (by decide)

theorem branchStep_Dependencies (a r : String) (n : Int) (b : String) (c : Cache) :
    (branchStep a r n b c).Dependencies = c.Dependencies := by
  unfold branchStep
  by_cases h1 : oerAction a = true <;> by_cases h2 : (a == "closed") = true <;>
    simp only [h1, h2, if_true, if_false, Bool.false_eq_true] <;> split <;> rfl

theorem branchStep_Dependents (a r : String) (n : Int) (b : String) (c : Cache) :
    (branchStep a r n b c).Dependents = c.Dependents := by
  unfold branchStep
  by_cases h1 : oerAction a = true <;> by_cases h2 : (a == "closed") = true <;>
    simp only [h1, h2, if_true, if_false, Bool.false_eq_true] <;> split <;> rfl

theorem branchStep_Branches (a r : String) (n : Int) (b : String) (c : Cache)
    (r' : String) (n' : Int) :
    bget2 (branchStep a r n b c).Branches r' n' =
      if oerAction a then
        (if r' = r ∧ n' = n then some b else bget2 c.Branches r' n')
      else if a == "closed" then
        (if r' = r ∧ n' = n then none else bget2 c.Branches r' n')
      else bget2 c.Branches r' n' := by
  unfold branchStep
  by_cases h1 : oerAction a = true
  · rw [oerAction_ne_closed h1]
    simp only [h1, if_true, Bool.false_eq_true, if_false]
    rw [bget2_bset2]
  · by_cases h2 : (a == "closed") = true
    · simp only [h1, h2, Bool.false_eq_true, if_false, if_true]
      by_cases h3 : (bget2 c.Branches r n).isSome = true
      · simp only [h3, if_true]
        rw [bget2_mdel2]
      · simp only [h3, Bool.false_eq_true, if_false]
        by_cases h4 : r' = r ∧ n' = n
        · obtain ⟨h4a, h4b⟩ := h4
          subst h4a
          subst h4b
          simp only [if_pos (And.intro rfl rfl)]
          cases hb : bget2 c.Branches r' n' with
          | none => rfl
          | some w => rw [hb] at h3; simp at h3
        · simp only [h4, if_false]
    · simp only [h1, h2, Bool.false_eq_true, if_false]

theorem bget3_mdel2 {α γ δ β : Type} [DecidableEq α] [DecidableEq γ] [DecidableEq δ]
    (m : GMap α (GMap γ (GMap δ β))) (r : α) (n : γ) (t : α) (i : γ) (k : δ) :
    bget3 (mdel2 m r n) t i k = if t = r ∧ i = n then none else bget3 m t i k := by
  unfold bget3
  rw [bget2_mdel2]
  by_cases h : t = r ∧ i = n <;> simp [h]

/-- Three-level reads only shrink (each read is kept or has become
`none`): the relation every delete-style step preserves. -/
def depsSub3 (m' m : GMap String (GMap Int (GMap String Int))) : Prop :=
  ∀ t i k, bget3 m' t i k = bget3 m t i k ∨ bget3 m' t i k = none

theorem depsSub3_refl (m : GMap String (GMap Int (GMap String Int))) :
    depsSub3 m m := fun _ _ _ => Or.inl rfl

theorem depsSub3_trans {m1 m2 m3 : GMap String (GMap Int (GMap String Int))}
    (h12 : depsSub3 m1 m2) (h23 : depsSub3 m2 m3) : depsSub3 m1 m3 := by
  intro t i k
  rcases h12 t i k with h | h
  · rcases h23 t i k with h' | h'
    · exact Or.inl (h.trans h')
    · exact Or.inr (h.trans h')
  · exact Or.inr h

theorem depsSub3_mdel2 (m : GMap String (GMap Int (GMap String Int)))
    (r : String) (n : Int) : depsSub3 (mdel2 m r n) m := by
  intro t i k
  rw [bget3_mdel2]
  by_cases h : t = r ∧ i = n <;> simp [h]

theorem depsSub3_mdel3 (m : GMap String (GMap Int (GMap String Int)))
    (r : String) (n : Int) (k0 : String) : depsSub3 (mdel3 m r n k0) m := by
  intro t i k
  rw [bget3_mdel3]
  by_cases h : t = r ∧ i = n ∧ k = k0 <;> simp [h]

/-- Two-level presence only shrinks. -/
def isSomeSub2 (m' m : GMap String (GMap Int (GMap String Int))) : Prop :=
  ∀ r n, (bget2 m' r n).isSome = true → (bget2 m r n).isSome = true

theorem isSomeSub2_refl (m : GMap String (GMap Int (GMap String Int))) :
    isSomeSub2 m m := fun _ _ h => h

theorem isSomeSub2_trans {m1 m2 m3 : GMap String (GMap Int (GMap String Int))}
    (h12 : isSomeSub2 m1 m2) (h23 : isSomeSub2 m2 m3) : isSomeSub2 m1 m3 :=
  fun r n h => h23 r n (h12 r n h)

theorem isSomeSub2_mdel2 (m : GMap String (GMap Int (GMap String Int)))
    (r0 : String) (n0 : Int) : isSomeSub2 (mdel2 m r0 n0) m := by
  intro r n h
  rw [bget2_mdel2] at h
  by_cases hc : r = r0 ∧ n = n0
  · rw [if_pos hc] at h
    simp at h
  · rwa [if_neg hc] at h

theorem isSomeSub2_mdel3 (m : GMap String (GMap Int (GMap String Int)))
    (r0 : String) (n0 : Int) (k0 : String) : isSomeSub2 (mdel3 m r0 n0 k0) m := by
  intro r n h
  rw [bget2_mdel3] at h
  by_cases hc : r = r0 ∧ n = n0
  · rw [if_pos hc] at h
    obtain ⟨h1, h2⟩ := hc
    subst h1
    subst h2
    cases hb : bget2 m r n with
    | none => rw [hb] at h; simp at h
    | some w => simp [hb]
  · rwa [if_neg hc] at h

theorem cleanupBefore_Branches (repo : String) (c : Cache) (p : String × Int) :
    (cleanupBefore repo c p).Branches = c.Branches := by
  unfold cleanupBefore
  dsimp only
  split <;> split <;> first | rfl | (split <;> first | rfl | (split <;> rfl))

theorem cleanupBefore_dep_sub (repo : String) (c : Cache) (p : String × Int) :
    isSomeSub2 (cleanupBefore repo c p).Dependencies c.Dependencies := by
  unfold cleanupBefore
  dsimp only
  split
  · split
    · exact isSomeSub2_refl _
    · split
      · split
        · exact isSomeSub2_mdel2 _ _ _
        · exact isSomeSub2_mdel2 _ _ _
      · split
        · exact isSomeSub2_refl _
        · exact isSomeSub2_refl _
  · split
    · exact isSomeSub2_refl _
    · split
      · split
        · exact isSomeSub2_mdel2 _ _ _
        · exact isSomeSub2_mdel2 _ _ _
      · split
        · exact isSomeSub2_refl _
        · exact isSomeSub2_refl _

theorem cleanupBefore_dpt_sub (repo : String) (c : Cache) (p : String × Int) :
    isSomeSub2 (cleanupBefore repo c p).Dependents c.Dependents := by
  unfold cleanupBefore
  dsimp only
  split
  · split
    · exact isSomeSub2_mdel3 _ _ _ _
    · split <;> split <;>
        first
          | exact isSomeSub2_trans (isSomeSub2_mdel2 _ _ _) (isSomeSub2_mdel3 _ _ _ _)
          | exact isSomeSub2_mdel3 _ _ _ _
  · split
    · exact isSomeSub2_refl _
    · split <;> split <;>
        first
          | exact isSomeSub2_trans (isSomeSub2_mdel2 _ _ _) (isSomeSub2_refl _)
          | exact isSomeSub2_refl _

theorem cleanupBefore_dpt_sub3 (repo : String) (c : Cache) (p : String × Int) :
    depsSub3 (cleanupBefore repo c p).Dependents c.Dependents := by
  unfold cleanupBefore
  dsimp only
  split
  · split
    · exact depsSub3_mdel3 _ _ _ _
    · split <;> split <;>
        first
          | exact depsSub3_trans (depsSub3_mdel2 _ _ _) (depsSub3_mdel3 _ _ _ _)
          | exact depsSub3_mdel3 _ _ _ _
  · split
    · exact depsSub3_refl _
    · split <;> split <;>
        first
          | exact depsSub3_trans (depsSub3_mdel2 _ _ _) (depsSub3_refl _)
          | exact depsSub3_refl _

theorem addDep_panic (a repo : String) (num : Int) (c : Cache) (d : String)
    (hp : parseToken d = none) : addDep a repo num c d = none := by
  unfold addDep
  rw [hp]

theorem addDep_skip (a repo : String) (num : Int) (c : Cache) (d : String)
    (hp : parseToken d = some none) : addDep a repo num c d = some c := by
  unfold addDep
  rw [hp]

theorem addDep_stale (a repo : String) (num : Int) (c : Cache) (d : String)
    (t : String) (i : Int) (hp : parseToken d = some (some (t, i)))
    (hstale : (bget2 c.Branches t i).isSome = false) :
    ∃ c', addDep a repo num c d = some c' ∧
      c'.Branches = c.Branches ∧
      (∀ r' n', bget2 c'.Dependencies r' n' =
        if r' = t ∧ n' = i then none else bget2 c.Dependencies r' n') ∧
      (∀ r' n', bget2 c'.Dependents r' n' =
        if r' = t ∧ n' = i then none else bget2 c.Dependents r' n') := by
  have hdepnone : ∀ X : GMap String (GMap Int (GMap String Int)),
      (bget2 X t i).isSome = false →
      ∀ r' n', bget2 X r' n' = if r' = t ∧ n' = i then none else bget2 X r' n' := by
    intro X hX r' n'
    by_cases hc : r' = t ∧ n' = i
    · obtain ⟨h1, h2⟩ := hc
      subst h1
      subst h2
      rw [if_pos ⟨rfl, rfl⟩]
      cases hb : bget2 X r' n' with
      | none => rfl
      | some w => rw [hb] at hX; simp at hX
    · rw [if_neg hc]
  unfold addDep
  rw [hp]
  dsimp only
  rw [hstale]
  simp only [Bool.false_eq_true, if_false]
  by_cases hd : (bget2 c.Dependencies t i).isSome = true
  · rw [if_pos hd]
    dsimp only
    by_cases hdp : (bget2 c.Dependents t i).isSome = true
    · rw [if_pos hdp]
      refine ⟨_, rfl, rfl, ?_, ?_⟩
      · intro r' n'
        exact bget2_mdel2 c.Dependencies t r' i n'
      · intro r' n'
        exact bget2_mdel2 c.Dependents t r' i n'
    · rw [if_neg hdp]
      refine ⟨_, rfl, rfl, ?_, ?_⟩
      · intro r' n'
        exact bget2_mdel2 c.Dependencies t r' i n'
      · intro r' n'
        exact hdepnone c.Dependents (by simpa using hdp) r' n'
  · rw [if_neg hd]
    by_cases hdp : (bget2 c.Dependents t i).isSome = true
    · rw [if_pos hdp]
      refine ⟨_, rfl, rfl, ?_, ?_⟩
      · intro r' n'
        exact hdepnone c.Dependencies (by simpa using hd) r' n'
      · intro r' n'
        exact bget2_mdel2 c.Dependents t r' i n'
    · rw [if_neg hdp]
      refine ⟨_, rfl, rfl, ?_, ?_⟩
      · intro r' n'
        exact hdepnone c.Dependencies (by simpa using hd) r' n'
      · intro r' n'
        exact hdepnone c.Dependents (by simpa using hdp) r' n'

theorem addDep_live (a repo : String) (num : Int) (c : Cache) (d : String)
    (t : String) (i : Int) (m1 : GMap Int (GMap String Int)) (m2 : GMap String Int)
    (hp : parseToken d = some (some (t, i)))
    (hoer : oerAction a = true)
    (hlive : (bget2 c.Branches t i).isSome = true)
    (hm1 : mget c.Dependencies repo = some m1)
    (hm2 : mget m1 num = some m2) :
    ∃ c', addDep a repo num c d = some c' ∧
      c'.Branches = c.Branches ∧
      (∀ r' n', bget2 c'.Dependencies r' n' =
        if r' = repo ∧ n' = num then some (mset m2 t i)
        else bget2 c.Dependencies r' n') ∧
      (∀ r' n', bget2 c'.Dependents r' n' =
        if r' = t ∧ n' = i then some (mset ((bget2 c.Dependents t i).getD []) repo num)
        else bget2 c.Dependents r' n') := by
  unfold addDep
  rw [hp]
  dsimp only
  rw [hlive, hoer]
  simp only [if_true]
  rw [hm1]
  dsimp only
  rw [hm2]
  dsimp only
  refine ⟨_, rfl, rfl, ?_, ?_⟩
  · intro r' n'
    by_cases h1 : r' = repo
    · subst h1
      show bget2 (mset c.Dependencies r' (mset m1 num (mset m2 t i))) r' n' = _
      unfold bget2
      rw [mget_mset, if_pos rfl]
      by_cases h2 : n' = num
      · subst h2
        rw [if_pos ⟨rfl, rfl⟩]
        simp [mget_mset]
      · rw [if_neg (by intro hc; exact h2 hc.2)]
        rw [hm1]
        simp [mget_mset, h2]
    · show bget2 (mset c.Dependencies repo (mset m1 num (mset m2 t i))) r' n' = _
      unfold bget2
      rw [mget_mset, if_neg h1, if_neg (by intro hc; exact h1 hc.1)]
  · intro r' n'
    exact bget2_bset3 c.Dependents t r' i n' repo num

theorem bget2_eq_some_elim {α γ β : Type} [DecidableEq α] [DecidableEq γ]
    {m : GMap α (GMap γ β)} {r : α} {n : γ} {v : β}
    (h : bget2 m r n = some v) :
    ∃ m1, mget m r = some m1 ∧ mget m1 n = some v := by
  unfold bget2 at h
  cases hm : mget m r with
  | none => rw [hm] at h; exact absurd h (by simp)
  | some m1 =>
    rw [hm] at h
    exact ⟨m1, rfl, h⟩

theorem addDep_branches {a repo : String} {num : Int} {c : Cache} {d : String}
    {c' : Cache} (h : addDep a repo num c d = some c') :
    c'.Branches = c.Branches := by
  unfold addDep at h
  cases hp : parseToken d with
  | none => rw [hp] at h; exact absurd h (by simp)
  | some o =>
    rw [hp] at h
    cases o with
    | none =>
      simp only [Option.some.injEq] at h
      rw [← h]
    | some ti =>
      obtain ⟨t, i⟩ := ti
      dsimp only at h
      repeat' split at h
      all_goals simp only [Option.some.injEq] at h
      all_goals rw [← h]

theorem addDep_some (a repo : String) (num : Int) (c : Cache) (d : String)
    (hp : ((splitHash d)[1]?).isSome = true) :
    (addDep a repo num c d).isSome = true := by
  unfold addDep
  cases hpt : parseToken d with
  | none =>
    rw [(parseToken_eq_none_iff d).mp hpt] at hp
    simp at hp
  | some o =>
    cases o with
    | none => simp
    | some ti =>
      obtain ⟨t, i⟩ := ti
      dsimp only
      repeat' split
      all_goals simp

theorem addDeps_branches {a repo : String} {num : Int} {toks : List String} :
    ∀ {c c' : Cache}, addDeps a repo num c toks = some c' →
    c'.Branches = c.Branches := by
  induction toks with
  | nil =>
    intro c c' h
    simp only [addDeps, Option.some.injEq] at h
    rw [← h]
  | cons d rest ih =>
    intro c c' h
    rw [addDeps] at h
    cases hd : addDep a repo num c d with
    | none => rw [hd] at h; exact absurd h (by simp)
    | some c1 =>
      rw [hd] at h
      rw [ih h, addDep_branches hd]

theorem addDeps_some (a repo : String) (num : Int) (toks : List String)
    (hp : ∀ d ∈ toks, ((splitHash d)[1]?).isSome = true) :
    ∀ c : Cache, (addDeps a repo num c toks).isSome = true := by
  induction toks with
  | nil => intro c; simp [addDeps]
  | cons d rest ih =>
    intro c
    rw [addDeps]
    cases hd : addDep a repo num c d with
    | none =>
      have := addDep_some a repo num c d (hp d (by simp))
      rw [hd] at this
      simp at this
    | some c1 => exact ih (fun x hx => hp x (by simp [hx])) c1

/-- Referential integrity restricted to outer keys: every `(r, n)` with a
`Dependencies[r][n]` or `Dependents[r][n]` entry has a branch entry. -/
def OuterRI (c : Cache) : Prop :=
  ∀ r n, ((bget2 c.Dependencies r n).isSome = true ∨
          (bget2 c.Dependents r n).isSome = true) →
    (bget2 c.Branches r n).isSome = true

/-- Through the token loop of an opened/edited/reopened event: branches are
untouched, `Dependencies[repo][num]` stays present, and outer referential
integrity is preserved. -/
theorem addDeps_pres (a repo : String) (num : Int) (toks : List String) :
    ∀ (c c' : Cache), addDeps a repo num c toks = some c' →
    (bget2 c.Branches repo num).isSome = true →
    ∀ m, bget2 c.Dependencies repo num = some m →
    (∃ m', bget2 c'.Dependencies repo num = some m') ∧
    (OuterRI c → OuterRI c') := by
  induction toks with
  | nil =>
    intro c c' h hB m hm
    simp only [addDeps, Option.some.injEq] at h
    rw [← h]
    exact ⟨⟨m, hm⟩, fun hi => hi⟩
  | cons d rest ih =>
    intro c c' h hB m hm
    rw [addDeps] at h
    cases hd : addDep a repo num c d with
    | none => rw [hd] at h; exact absurd h (by simp)
    | some c1 =>
      rw [hd] at h
      cases hp : parseToken d with
      | none => rw [addDep_panic a repo num c d hp] at hd; exact absurd hd (by simp)
      | some o =>
        cases o with
        | none =>
          rw [addDep_skip a repo num c d hp] at hd
          simp only [Option.some.injEq] at hd
          subst hd
          exact ih c c' h hB m hm
        | some ti =>
          obtain ⟨t, i⟩ := ti
          by_cases hlive : (bget2 c.Branches t i).isSome = true
          · obtain ⟨m1, hm1, hm2⟩ := bget2_eq_some_elim hm
            by_cases hoer : oerAction a = true
            · obtain ⟨c1', hc1', hbr, hdep, hdpt⟩ :=
                addDep_live a repo num c d t i m1 m hp hoer hlive hm1 hm2
              rw [hc1'] at hd
              simp only [Option.some.injEq] at hd
              rw [← hd] at h
              have hB1 : (bget2 c1'.Branches repo num).isSome = true := by
                rw [hbr]; exact hB
              have hm' : bget2 c1'.Dependencies repo num = some (mset m t i) := by
                rw [hdep repo num, if_pos ⟨rfl, rfl⟩]
              obtain ⟨hex, hinv⟩ := ih c1' c' h hB1 _ hm'
              refine ⟨hex, fun hri => hinv ?_⟩
              intro r n hsome
              rw [hbr]
              rcases hsome with hs | hs
              · rw [hdep r n] at hs
                by_cases hc : r = repo ∧ n = num
                · obtain ⟨h1, h2⟩ := hc
                  subst h1
                  subst h2
                  exact hB
                · rw [if_neg hc] at hs
                  exact hri r n (Or.inl hs)
              · rw [hdpt r n] at hs
                by_cases hc : r = t ∧ n = i
                · obtain ⟨h1, h2⟩ := hc
                  subst h1
                  subst h2
                  exact hlive
                · rw [if_neg hc] at hs
                  exact hri r n (Or.inr hs)
            · have : addDep a repo num c d = some c := by
                unfold addDep
                rw [hp]
                dsimp only
                rw [hlive]
                simp only [if_true]
                rw [if_neg hoer]
              rw [this] at hd
              simp only [Option.some.injEq] at hd
              subst hd
              exact ih c c' h hB m hm
          · have hstale : (bget2 c.Branches t i).isSome = false := by
              simpa using hlive
            obtain ⟨c1', hc1', hbr, hdep, hdpt⟩ :=
              addDep_stale a repo num c d t i hp hstale
            rw [hc1'] at hd
            simp only [Option.some.injEq] at hd
            rw [← hd] at h
            have hne : ¬(repo = t ∧ num = i) := by
              rintro ⟨h1, h2⟩
              subst h1
              subst h2
              rw [hB] at hstale
              exact absurd hstale (by simp)
            have hB1 : (bget2 c1'.Branches repo num).isSome = true := by
              rw [hbr]; exact hB
            have hm' : bget2 c1'.Dependencies repo num = some m := by
              rw [hdep repo num, if_neg hne]
              exact hm
            obtain ⟨hex, hinv⟩ := ih c1' c' h hB1 m hm'
            refine ⟨hex, fun hri => hinv ?_⟩
            intro r n hsome
            rw [hbr]
            rcases hsome with hs | hs
            · rw [hdep r n] at hs
              by_cases hc : r = t ∧ n = i
              · rw [if_pos hc] at hs
                simp at hs
              · rw [if_neg hc] at hs
                exact hri r n (Or.inl hs)
            · rw [hdpt r n] at hs
              by_cases hc : r = t ∧ n = i
              · rw [if_pos hc] at hs
                simp at hs
              · rw [if_neg hc] at hs
                exact hri r n (Or.inr hs)

theorem bget2_absent_if {α γ β : Type} [DecidableEq α] [DecidableEq γ]
    {X : GMap α (GMap γ β)} {t : α} {i : γ}
    (h : (bget2 X t i).isSome = false) :
    ∀ r' n', bget2 X r' n' = if r' = t ∧ n' = i then none else bget2 X r' n' := by
  intro r' n'
  by_cases hc : r' = t ∧ n' = i
  · obtain ⟨h1, h2⟩ := hc
    subst h1
    subst h2
    rw [if_pos ⟨rfl, rfl⟩]
    cases hb : bget2 X r' n' with
    | none => rfl
    | some w => rw [hb] at h; simp at h
  · rw [if_neg hc]

theorem closedUnset_Branches (repo : String) (num : Int) (c : Cache) :
    (closedUnset repo num c).Branches = c.Branches := by
  unfold closedUnset
  dsimp only
  split <;> split <;> rfl

theorem closedUnset_Dependencies (repo : String) (num : Int) (c : Cache) :
    ∀ r n, bget2 (closedUnset repo num c).Dependencies r n =
      if r = repo ∧ n = num then none else bget2 c.Dependencies r n := by
  intro r n
  unfold closedUnset
  dsimp only
  by_cases h1 : (bget2 c.Dependencies repo num).isSome = true
  · rw [if_pos h1]
    try dsimp only
    split <;> exact bget2_mdel2 c.Dependencies repo r num n
  · rw [if_neg h1]
    try dsimp only
    split <;> exact bget2_absent_if (by simpa using h1) r n

theorem closedUnset_Dependents (repo : String) (num : Int) (c : Cache) :
    ∀ r n, bget2 (closedUnset repo num c).Dependents r n =
      if r = repo ∧ n = num then none else bget2 c.Dependents r n := by
  intro r n
  unfold closedUnset
  dsimp only
  by_cases h1 : (bget2 c.Dependencies repo num).isSome = true
  · rw [if_pos h1]
    try dsimp only
    by_cases h2 : (bget2 c.Dependents repo num).isSome = true
    · rw [if_pos h2]
      exact bget2_mdel2 c.Dependents repo r num n
    · rw [if_neg h2]
      exact bget2_absent_if (by simpa using h2) r n
  · rw [if_neg h1]
    try dsimp only
    by_cases h2 : (bget2 c.Dependents repo num).isSome = true
    · rw [if_pos h2]
      exact bget2_mdel2 c.Dependents repo r num n
    · rw [if_neg h2]
      exact bget2_absent_if (by simpa using h2) r n

theorem closedDep_panic (repo : String) (num : Int) (c : Cache) (d : String)
    (hp : parseToken d = none) : closedDep repo num c d = none := by
  unfold closedDep
  rw [hp]

theorem closedDep_skip (repo : String) (num : Int) (c : Cache) (d : String)
    (hp : parseToken d = some none) : closedDep repo num c d = some c := by
  unfold closedDep
  rw [hp]

theorem closedDep_some (repo : String) (num : Int) (c : Cache) (d : String)
    (hp : ((splitHash d)[1]?).isSome = true) :
    (closedDep repo num c d).isSome = true := by
  unfold closedDep
  cases hpt : parseToken d with
  | none =>
    rw [(parseToken_eq_none_iff d).mp hpt] at hp
    simp at hp
  | some o =>
    cases o with
    | none => simp
    | some ti =>
      obtain ⟨t, i⟩ := ti
      dsimp only
      repeat' split
      all_goals simp

theorem closedDep_branches {repo : String} {num : Int} {c : Cache} {d : String}
    {c' : Cache} (h : closedDep repo num c d = some c') :
    c'.Branches = c.Branches := by
  unfold closedDep at h
  cases hp : parseToken d with
  | none => rw [hp] at h; exact absurd h (by simp)
  | some o =>
    rw [hp] at h
    cases o with
    | none =>
      simp only [Option.some.injEq] at h
      rw [← h]
    | some ti =>
      obtain ⟨t, i⟩ := ti
      dsimp only at h
      repeat' split at h
      all_goals simp only [Option.some.injEq] at h
      all_goals rw [← h]

theorem closedDep_subs {repo : String} {num : Int} {c : Cache} {d : String}
    {c' : Cache} (h : closedDep repo num c d = some c') :
    isSomeSub2 c'.Dependencies c.Dependencies ∧
    isSomeSub2 c'.Dependents c.Dependents ∧
    depsSub3 c'.Dependents c.Dependents := by
  unfold closedDep at h
  cases hp : parseToken d with
  | none => rw [hp] at h; exact absurd h (by simp)
  | some o =>
    rw [hp] at h
    cases o with
    | none =>
      simp only [Option.some.injEq] at h
      rw [← h]
      exact ⟨isSomeSub2_refl _, isSomeSub2_refl _, depsSub3_refl _⟩
    | some ti =>
      obtain ⟨t, i⟩ := ti
      dsimp only at h
      repeat' split at h
      all_goals simp only [Option.some.injEq] at h
      all_goals rw [← h]
      all_goals refine ⟨?_, ?_, ?_⟩
      all_goals
        first
          | exact isSomeSub2_refl _
          | exact depsSub3_refl _
          | exact isSomeSub2_mdel2 _ _ _
          | exact isSomeSub2_mdel3 _ _ _ _
          | exact depsSub3_mdel2 _ _ _
          | exact depsSub3_mdel3 _ _ _ _
          | exact isSomeSub2_trans (isSomeSub2_mdel2 _ _ _) (isSomeSub2_mdel3 _ _ _ _)
          | exact depsSub3_trans (depsSub3_mdel2 _ _ _) (depsSub3_mdel3 _ _ _ _)

theorem cleanupBefore_dep_at (repo0 : String) (c : Cache) (p : String × Int)
    (R : String) (N : Int) (hbr : (bget2 c.Branches R N).isSome = true) :
    bget2 (cleanupBefore repo0 c p).Dependencies R N = bget2 c.Dependencies R N := by
  unfold cleanupBefore
  dsimp only
  by_cases h2 : (bget2 c.Branches p.1 p.2).isSome = true
  · by_cases h1 : (bget3 c.Dependents p.1 p.2 repo0).isSome = true
    · rw [if_pos h1]
      try dsimp only
      rw [if_pos h2]
    · rw [if_neg h1]
      rw [if_pos h2]
  · have hne : ¬(R = p.1 ∧ N = p.2) := by
      rintro ⟨e1, e2⟩
      subst e1
      subst e2
      rw [hbr] at h2
      exact h2 rfl
    by_cases h1 : (bget3 c.Dependents p.1 p.2 repo0).isSome = true
    · rw [if_pos h1]
      try dsimp only
      rw [if_neg h2]
      try dsimp only
      split
      · try dsimp only
        split <;> (rw [bget2_mdel2]; rw [if_neg hne])
      · try dsimp only
        split <;> rfl
    · rw [if_neg h1]
      rw [if_neg h2]
      try dsimp only
      split
      · try dsimp only
        split <;> (rw [bget2_mdel2]; rw [if_neg hne])
      · try dsimp only
        split <;> rfl

theorem cleanupFold_facts (repo0 : String) (l : List (String × Int)) :
    ∀ c : Cache,
      (List.foldl (cleanupBefore repo0) c l).Branches = c.Branches ∧
      isSomeSub2 (List.foldl (cleanupBefore repo0) c l).Dependencies c.Dependencies ∧
      isSomeSub2 (List.foldl (cleanupBefore repo0) c l).Dependents c.Dependents ∧
      (∀ R N, (bget2 c.Branches R N).isSome = true →
        bget2 (List.foldl (cleanupBefore repo0) c l).Dependencies R N =
          bget2 c.Dependencies R N) := by
  induction l with
  | nil =>
    intro c
    exact ⟨rfl, isSomeSub2_refl _, isSomeSub2_refl _, fun _ _ _ => rfl⟩
  | cons p rest ih =>
    intro c
    simp only [List.foldl_cons]
    obtain ⟨ihB, ihD, ihP, ihAt⟩ := ih (cleanupBefore repo0 c p)
    refine ⟨?_, ?_, ?_, ?_⟩
    · rw [ihB, cleanupBefore_Branches]
    · exact isSomeSub2_trans ihD (cleanupBefore_dep_sub repo0 c p)
    · exact isSomeSub2_trans ihP (cleanupBefore_dpt_sub repo0 c p)
    · intro R N hbr
      have hbr1 : (bget2 (cleanupBefore repo0 c p).Branches R N).isSome = true := by
        rw [cleanupBefore_Branches]
        exact hbr
      rw [ihAt R N hbr1, cleanupBefore_dep_at repo0 c p R N hbr]


theorem updateCache_branchesOnly_eq (c : Cache) (a repo : String) (num : Int)
    (b : String) (toks : List String) :
    updateCache c a repo num b toks true = some (branchStep a repo num b c, false) :=
  rfl

theorem updateCache_eq_closed (c : Cache) (repo : String) (num : Int) (b : String)
    (toks : List String) :
    updateCache c "closed" repo num b toks false =
      match closedDeps repo num
          (closedUnset repo num (branchStep "closed" repo num b c)) toks with
      | none => none
      | some c2 => some (c2, false) := by
  unfold updateCache
  simp only [if_neg (show ¬(false = true) by simp)]
  rw [if_neg (show ¬(oerAction "closed" = true) by decide)]
  rw [if_pos (show (("closed" : String) == "closed") = true by decide)]
  have htr : ∀ c2 : Cache, trigOf "closed"
      ((bget2 (branchStep "closed" repo num b c).Dependencies repo num).getD [])
      repo num c2 = false := by
    intro c2
    unfold trigOf
    simp [show (("closed" : String) == "edited") = false by decide]
  cases hnext : closedDeps repo num
      (closedUnset repo num (branchStep "closed" repo num b c)) toks with
  | none => simp [hnext]
  | some c2 => simp [hnext, htr]

theorem updateCache_eq_oer {a : String} (hoer : oerAction a = true)
    (c : Cache) (repo : String) (num : Int) (b : String) (toks : List String) :
    updateCache c a repo num b toks false =
      match addDeps a repo num
          (((bget2 c.Dependencies repo num).getD []).foldl (cleanupBefore repo)
            (resetDeps repo num (branchStep a repo num b c))) toks with
      | none => none
      | some c2 =>
        some (c2, trigOf a ((bget2 c.Dependencies repo num).getD []) repo num c2) := by
  unfold updateCache
  simp only [if_neg (show ¬(false = true) by simp)]
  rw [branchStep_Dependencies]
  rw [if_pos hoer]

theorem updateCache_eq_other {a : String} (hoer : oerAction a = false)
    (hcl : (a == "closed") = false)
    (c : Cache) (repo : String) (num : Int) (b : String) (toks : List String) :
    updateCache c a repo num b toks false =
      some (branchStep a repo num b c,
        trigOf a ((bget2 c.Dependencies repo num).getD []) repo num
          (branchStep a repo num b c)) := by
  unfold updateCache
  simp only [if_neg (show ¬(false = true) by simp)]
  rw [branchStep_Dependencies]
  rw [if_neg (show ¬(oerAction a = true) by simp [hoer])]
  rw [if_neg (show ¬((a == "closed") = true) by simp [hcl])]

theorem closedDep_post {repo : String} {num : Int} {c : Cache} {d : String}
    {c' : Cache} {t : String} {i : Int}
    (hp : parseToken d = some (some (t, i)))
    (h : closedDep repo num c d = some c') :
    bget3 c'.Dependents t i repo ≠ some num := by
  unfold closedDep at h
  rw [hp] at h
  dsimp only at h
  repeat' split at h
  all_goals simp only [Option.some.injEq] at h
  all_goals rw [← h]
  all_goals try dsimp only
  all_goals simp_all [bget3_mdel2, bget3_mdel3]

theorem closedDeps_branches {repo : String} {num : Int} {toks : List String} :
    ∀ {c c' : Cache}, closedDeps repo num c toks = some c' →
    c'.Branches = c.Branches := by
  induction toks with
  | nil =>
    intro c c' h
    simp only [closedDeps, Option.some.injEq] at h
    rw [← h]
  | cons d rest ih =>
    intro c c' h
    rw [closedDeps] at h
    cases hd : closedDep repo num c d with
    | none => rw [hd] at h; exact absurd h (by simp)
    | some c1 =>
      rw [hd] at h
      rw [ih h, closedDep_branches hd]

theorem closedDeps_subs {repo : String} {num : Int} {toks : List String} :
    ∀ {c c' : Cache}, closedDeps repo num c toks = some c' →
    isSomeSub2 c'.Dependencies c.Dependencies ∧
    isSomeSub2 c'.Dependents c.Dependents ∧
    depsSub3 c'.Dependents c.Dependents := by
  induction toks with
  | nil =>
    intro c c' h
    simp only [closedDeps, Option.some.injEq] at h
    rw [← h]
    exact ⟨isSomeSub2_refl _, isSomeSub2_refl _, depsSub3_refl _⟩
  | cons d rest ih =>
    intro c c' h
    rw [closedDeps] at h
    cases hd : closedDep repo num c d with
    | none => rw [hd] at h; exact absurd h (by simp)
    | some c1 =>
      rw [hd] at h
      obtain ⟨s1, s2, s3⟩ := closedDep_subs hd
      obtain ⟨t1, t2, t3⟩ := ih h
      exact ⟨isSomeSub2_trans t1 s1, isSomeSub2_trans t2 s2, depsSub3_trans t3 s3⟩

theorem closedDeps_some (repo : String) (num : Int) (toks : List String)
    (hp : ∀ d ∈ toks, ((splitHash d)[1]?).isSome = true) :
    ∀ c : Cache, (closedDeps repo num c toks).isSome = true := by
  induction toks with
  | nil => intro c; simp [closedDeps]
  | cons d rest ih =>
    intro c
    rw [closedDeps]
    cases hd : closedDep repo num c d with
    | none =>
      have := closedDep_some repo num c d (hp d (by simp))
      rw [hd] at this
      simp at this
    | some c1 => exact ih (fun x hx => hp x (by simp [hx])) c1

theorem closedDeps_post {repo : String} {num : Int} {toks : List String} :
    ∀ {c c' : Cache}, closedDeps repo num c toks = some c' →
    ∀ t i, (t, i) ∈ toks.filterMap (fun d => (parseToken d).bind id) →
    bget3 c'.Dependents t i repo ≠ some num := by
  induction toks with
  | nil =>
    intro c c' h t i hmem
    simp at hmem
  | cons d rest ih =>
    intro c c' h t i hmem
    rw [closedDeps] at h
    cases hd : closedDep repo num c d with
    | none => rw [hd] at h; exact absurd h (by simp)
    | some c1 =>
      rw [hd] at h
      rw [List.filterMap_cons] at hmem
      cases hpd : (parseToken d).bind id with
      | none =>
        rw [hpd] at hmem
        exact ih h t i hmem
      | some ti =>
        rw [hpd] at hmem
        rcases List.mem_cons.mp hmem with hmem | hmem
        · subst hmem
          have hp : parseToken d = some (some (t, i)) := by
            cases hpt : parseToken d with
            | none => rw [hpt] at hpd; simp at hpd
            | some o =>
              rw [hpt] at hpd
              cases o with
              | none => simp at hpd
              | some ti' => simp at hpd; rw [hpd]
          have hpost := closedDep_post hp hd
          obtain ⟨_, _, s3⟩ := closedDeps_subs h
          rcases s3 t i repo with heq | hnone
          · rw [heq]; exact hpost
          · rw [hnone]; simp
        · exact ih h t i hmem

theorem isSome_false_eq_none {β : Type} {o : Option β}
    (h : (o.isSome) = false) : o = none := by
  cases o with
  | none => rfl
  | some v => simp at h

/-- C4: lifecycle closure.  Applying `opened` and then `closed` for the
same `(repo, num)`, the same branch and the same token list leaves no
`BranchIndex[repo][num]` entry, no outer `Dependencies[repo][num]` or
`Dependents[repo][num]` entry, and no reverse entry
`Dependents[t][i][repo] == num` for any target `(t, i)` parsed from the
token list.  (The `closed` call alone already guarantees all four.) -/
theorem updateCache_lifecycle_closure (c : Cache) (repo : String) (num : Int)
    (b : String) (toks : List String) (c1 c2 : Cache) (t1 t2 : Bool)
    (t : String) (i : Int)
    (_h1 : updateCache c "opened" repo num b toks false = some (c1, t1))
    (h2 : updateCache c1 "closed" repo num b toks false = some (c2, t2))
    (hmem : (t, i) ∈ toks.filterMap (fun d => (parseToken d).bind id)) :
    bget2 c2.Branches repo num = none ∧
    bget2 c2.Dependencies repo num = none ∧
    bget2 c2.Dependents repo num = none ∧
    bget3 c2.Dependents t i repo ≠ some num := by
  rw [updateCache_eq_closed] at h2
  cases hdeps : closedDeps repo num
      (closedUnset repo num (branchStep "closed" repo num b c1)) toks with
  | none => rw [hdeps] at h2; exact absurd h2 (by simp)
  | some c3 =>
  rw [hdeps] at h2
  simp only [Option.some.injEq, Prod.mk.injEq] at h2
  obtain ⟨hc2, -⟩ := h2
  subst hc2
  have hbs : bget2 (branchStep "closed" repo num b c1).Branches repo num = none := by
    rw [branchStep_Branches]
    rw [if_neg (show ¬(oerAction "closed" = true) by decide)]
    rw [if_pos (show (("closed" : String) == "closed") = true by decide)]
    rw [if_pos ⟨rfl, rfl⟩]
  have hcu := closedUnset_Dependencies repo num (branchStep "closed" repo num b c1) repo num
  have hcu2 := closedUnset_Dependents repo num (branchStep "closed" repo num b c1) repo num
  rw [if_pos ⟨rfl, rfl⟩] at hcu
  rw [if_pos ⟨rfl, rfl⟩] at hcu2
  obtain ⟨s1, s2, -⟩ := closedDeps_subs hdeps
  refine ⟨?_, ?_, ?_, ?_⟩
  · rw [closedDeps_branches hdeps, closedUnset_Branches]
    exact hbs
  · refine isSome_false_eq_none ?_
    cases hv : (bget2 c3.Dependencies repo num).isSome with
    | false => rfl
    | true =>
      have := s1 repo num hv
      rw [hcu] at this
      simp at this
  · refine isSome_false_eq_none ?_
    cases hv : (bget2 c3.Dependents repo num).isSome with
    | false => rfl
    | true =>
      have := s2 repo num hv
      rw [hcu2] at this
      simp at this
  · exact closedDeps_post hdeps t i hmem

/-- C4 witness: opened then closed on `svc#1` with token list `["lib#5"]`
from the empty cache leaves nothing behind for `svc#1`. -/
theorem updateCache_lifecycle_closure_witness :
    (updateCache emptyCache "opened" "svc" 1 "b" ["lib#5"] false =
      some ({ Branches := [("svc", [(1, "b")])],
              Dependencies := [("svc", [(1, [])])],
              Dependents := [], Version := "1" }, false)) ∧
    (updateCache
        { Branches := [("svc", [(1, "b")])],
          Dependencies := [("svc", [(1, [])])],
          Dependents := [], Version := "1" } "closed" "svc" 1 "b" ["lib#5"] false =
      some ({ Branches := [("svc", [])], Dependencies := [("svc", [])],
              Dependents := [], Version := "1" }, false)) ∧
    (("lib", (5 : Int)) ∈ ["lib#5"].filterMap (fun d => (parseToken d).bind id)) ∧
    (bget2 ({ Branches := [("svc", [])], Dependencies := [("svc", [])],
              Dependents := [], Version := "1" } : Cache).Branches "svc" 1 = none ∧
     bget2 ({ Branches := [("svc", [])], Dependencies := [("svc", [])],
              Dependents := [], Version := "1" } : Cache).Dependencies "svc" 1 = none ∧
     bget2 ({ Branches := [("svc", [])], Dependencies := [("svc", [])],
              Dependents := [], Version := "1" } : Cache).Dependents "svc" 1 = none ∧
     bget3 ({ Branches := [("svc", [])], Dependencies := [("svc", [])],
              Dependents := [], Version := "1" } : Cache).Dependents "lib" 5 "svc" ≠ some 1) :=
  ⟨by decide, by decide, by decide,
    updateCache_lifecycle_closure emptyCache "svc" 1 "b" ["lib#5"]
      { Branches := [("svc", [(1, "b")])], Dependencies := [("svc", [(1, [])])],
        Dependents := [], Version := "1" }
      { Branches := [("svc", [])], Dependencies := [("svc", [])],
        Dependents := [], Version := "1" } false false
      "lib" 5 (by decide) (by decide) (by decide)⟩

/-- C8: with `branchesOnly` set, `updateCache` performs only the branch
step: the Job Trigger never fires, `Dependencies` and `Dependents` are left
exactly as they were, and only the `Branches[repo][num]` entry may have
changed — set to the branch for opened/edited/reopened, removed for
closed, untouched for any other action; at every other key the branch
index reads the same. -/
theorem updateCache_branchesOnly_frame (a repo : String) (num : Int) (b : String)
    (toks : List String) (c c' : Cache) (trig : Bool) (r' : String) (n' : Int)
    (h : updateCache c a repo num b toks true = some (c', trig)) :
    trig = false ∧ c'.Dependencies = c.Dependencies ∧ c'.Dependents = c.Dependents ∧
      bget2 c'.Branches r' n' =
        (if r' = repo ∧ n' = num then
          (if oerAction a then some b
           else if a == "closed" then none
           else bget2 c.Branches r' n')
        else bget2 c.Branches r' n') := by
  rw [updateCache_branchesOnly_eq] at h
  simp only [Option.some.injEq, Prod.mk.injEq] at h
  obtain ⟨hc, ht⟩ := h
  subst hc
  refine ⟨ht.symm, branchStep_Dependencies a repo num b c,
    branchStep_Dependents a repo num b c, ?_⟩
  rw [branchStep_Branches]
  by_cases hoer : oerAction a = true <;> by_cases hcl : (a == "closed") = true <;>
    by_cases hk : r' = repo ∧ n' = num <;> simp [hoer, hcl, hk]

/-- C8 witness: a branchesOnly `opened` on the empty cache sets only the
branch entry, even with an unparsable token in the list. -/
theorem updateCache_branchesOnly_frame_witness :
    (updateCache emptyCache "opened" "lib" 1 "b" ["nohash"] true =
      some ({ Branches := [("lib", [(1, "b")])], Dependencies := [],
              Dependents := [], Version := "1" }, false)) ∧
    (false = false ∧
     ({ Branches := [("lib", [(1, "b")])], Dependencies := [],
        Dependents := [], Version := "1" } : Cache).Dependencies = emptyCache.Dependencies ∧
     ({ Branches := [("lib", [(1, "b")])], Dependencies := [],
        Dependents := [], Version := "1" } : Cache).Dependents = emptyCache.Dependents ∧
      bget2 ({ Branches := [("lib", [(1, "b")])], Dependencies := [],
               Dependents := [], Version := "1" } : Cache).Branches "lib" 1 =
        (if "lib" = "lib" ∧ (1 : Int) = 1 then
          (if oerAction "opened" then some "b"
           else if "opened" == "closed" then none
           else bget2 emptyCache.Branches "lib" 1)
        else bget2 emptyCache.Branches "lib" 1)) :=
  ⟨by decide,
    updateCache_branchesOnly_frame "opened" "lib" 1 "b" ["nohash"] emptyCache
      { Branches := [("lib", [(1, "b")])], Dependencies := [],
        Dependents := [], Version := "1" } false
      "lib" 1 (by decide)⟩

theorem malformed_parseToken {d : String} (h : malformedToken d = true) :
    parseToken d = some none := by
  unfold malformedToken at h
  unfold parseToken
  cases hs : (splitHash d)[1]? with
  | none => rw [hs] at h; simp at h
  | some v1 =>
    rw [hs] at h
    dsimp only at h ⊢
    cases hg : goAtoi v1 with
    | none => simp [hg]
    | some k => rw [hg] at h; simp at h

theorem addDeps_filter (a repo : String) (num : Int) (toks : List String) :
    ∀ c : Cache,
      addDeps a repo num c (toks.filter (fun d => !malformedToken d)) =
        addDeps a repo num c toks := by
  induction toks with
  | nil => intro c; rfl
  | cons d rest ih =>
    intro c
    by_cases hm : malformedToken d = true
    · rw [List.filter_cons_of_neg (by simp [hm])]
      have hr : addDeps a repo num c (d :: rest) = addDeps a repo num c rest := by
        rw [addDeps, addDep_skip a repo num c d (malformed_parseToken hm)]
      rw [hr, ih c]
    · rw [List.filter_cons_of_pos (by simp [Bool.not_eq_true] at hm; simp [hm])]
      rw [addDeps, addDeps]
      cases hd : addDep a repo num c d with
      | none => rfl
      | some c1 => exact ih c1

theorem closedDeps_filter (repo : String) (num : Int) (toks : List String) :
    ∀ c : Cache,
      closedDeps repo num c (toks.filter (fun d => !malformedToken d)) =
        closedDeps repo num c toks := by
  induction toks with
  | nil => intro c; rfl
  | cons d rest ih =>
    intro c
    by_cases hm : malformedToken d = true
    · rw [List.filter_cons_of_neg (by simp [hm])]
      have hr : closedDeps repo num c (d :: rest) = closedDeps repo num c rest := by
        rw [closedDeps, closedDep_skip repo num c d (malformed_parseToken hm)]
      rw [hr, ih c]
    · rw [List.filter_cons_of_pos (by simp [Bool.not_eq_true] at hm; simp [hm])]
      rw [closedDeps, closedDeps]
      cases hd : closedDep repo num c d with
      | none => rfl
      | some c1 => exact ih c1

/-- C9: a token with a `'#'` but a non-numeric `vals[1]` field is silently
dropped — running `updateCache` on any token list gives exactly the same
result (same cache, same trigger decision, no error) as running it on the
list with all such malformed tokens removed, for every action and both
`branchesOnly` modes. -/
theorem updateCache_malformed_tokens_dropped (c : Cache) (a repo : String)
    (num : Int) (b : String) (toks : List String) (bo : Bool) :
    updateCache c a repo num b toks bo =
      updateCache c a repo num b (toks.filter (fun d => !malformedToken d)) bo := by
  cases bo with
  | true => rw [updateCache_branchesOnly_eq, updateCache_branchesOnly_eq]
  | false =>
    by_cases hoer : oerAction a = true
    · rw [updateCache_eq_oer hoer, updateCache_eq_oer hoer, addDeps_filter]
    · by_cases hcl : (a == "closed") = true
      · have ha : a = "closed" := by simpa using hcl
        subst ha
        rw [updateCache_eq_closed, updateCache_eq_closed, closedDeps_filter]
      · rw [updateCache_eq_other (by simpa using hoer) (by simpa using hcl),
          updateCache_eq_other (by simpa using hoer) (by simpa using hcl)]

/-- C10 (amended): `updateCache` completes normally on every token list in
which each token contains at least one `'#'` (so that `vals[1]` exists);
without that guarantee a token such as `"nohash"` makes the `vals[1]`
access panic (see the counterexample theorem). -/
theorem updateCache_total_with_separator (c : Cache) (a repo : String)
    (num : Int) (b : String) (toks : List String) (bo : Bool)
    (h : ∀ d ∈ toks, ((splitHash d)[1]?).isSome = true) :
    (updateCache c a repo num b toks bo).isSome = true := by
  cases bo with
  | true => rw [updateCache_branchesOnly_eq]; rfl
  | false =>
    by_cases hoer : oerAction a = true
    · rw [updateCache_eq_oer hoer]
      cases hnext : addDeps a repo num
          (((bget2 c.Dependencies repo num).getD []).foldl (cleanupBefore repo)
            (resetDeps repo num (branchStep a repo num b c))) toks with
      | none =>
        have := addDeps_some a repo num toks h
          (((bget2 c.Dependencies repo num).getD []).foldl (cleanupBefore repo)
            (resetDeps repo num (branchStep a repo num b c)))
        rw [hnext] at this
        simp at this
      | some c2 => simp [hnext]
    · by_cases hcl : (a == "closed") = true
      · have ha : a = "closed" := by simpa using hcl
        subst ha
        rw [updateCache_eq_closed]
        cases hnext : closedDeps repo num
            (closedUnset repo num (branchStep "closed" repo num b c)) toks with
        | none =>
          have := closedDeps_some repo num toks h
            (closedUnset repo num (branchStep "closed" repo num b c))
          rw [hnext] at this
          simp at this
        | some c2 => simp [hnext]
      · rw [updateCache_eq_other (by simpa using hoer) (by simpa using hcl)]
        rfl

/-- C10 amended witness: a well-formed and a malformed-but-separated token
both keep the call total. -/
theorem updateCache_total_with_separator_witness :
    (∀ d ∈ ["lib#5", "lib#x"], ((splitHash d)[1]?).isSome = true) ∧
    (updateCache emptyCache "opened" "svc" 1 "b" ["lib#5", "lib#x"] false).isSome = true :=
  ⟨by decide,
    updateCache_total_with_separator emptyCache "opened" "svc" 1 "b"
      ["lib#5", "lib#x"] false (by decide)⟩

theorem oerAction_of_edited {a : String} (h : (a == "edited") = true) :
    oerAction a = true := by
  have ha : a = "edited" := by simpa using h
  subst ha
  decide

/-- C3: the Job Trigger fires exactly when the action is `"edited"` and the
dependency set before the update (empty when absent) differs by value
equality from `Dependencies[repo][num]` after the update; it then fires
exactly once (the model's flag records the single `triggerPRJob` call at
line 252).  For `opened`, `reopened`, `closed` — and for an `edited` whose
resulting set is unchanged — it never fires. -/
theorem updateCache_trigger_iff (c : Cache) (a repo : String) (num : Int)
    (b : String) (toks : List String) (bo : Bool) (c' : Cache) (trig : Bool)
    (h : updateCache c a repo num b toks bo = some (c', trig)) :
    trig = true ↔
      (a = "edited" ∧
        mapEquiv ((bget2 c.Dependencies repo num).getD [])
          ((bget2 c'.Dependencies repo num).getD []) = false) := by
  cases bo with
  | true =>
    rw [updateCache_branchesOnly_eq] at h
    simp only [Option.some.injEq, Prod.mk.injEq] at h
    obtain ⟨hc, ht⟩ := h
    subst hc
    rw [← ht]
    constructor
    · intro hfalse
      exact absurd hfalse (by simp)
    · rintro ⟨ha, hm⟩
      rw [branchStep_Dependencies] at hm
      rw [mapEquiv_refl] at hm
      exact absurd hm (by simp)
  | false =>
    by_cases hoer : oerAction a = true
    · rw [updateCache_eq_oer hoer] at h
      set cpre := ((bget2 c.Dependencies repo num).getD []).foldl (cleanupBefore repo)
        (resetDeps repo num (branchStep a repo num b c)) with hcpre
      cases hnext : addDeps a repo num cpre toks with
      | none => rw [hnext] at h; exact absurd h (by simp)
      | some c2 =>
        rw [hnext] at h
        simp only [Option.some.injEq, Prod.mk.injEq] at h
        obtain ⟨hc, ht⟩ := h
        subst hc
        have hBr : (bget2 (branchStep a repo num b c).Branches repo num).isSome = true := by
          rw [branchStep_Branches]
          simp [hoer]
        have hRD : bget2 (resetDeps repo num (branchStep a repo num b c)).Dependencies
            repo num = some [] := by
          unfold resetDeps
          dsimp only
          rw [bget2_bset2, if_pos ⟨rfl, rfl⟩]
        obtain ⟨fB, fD, fP, fAt⟩ := cleanupFold_facts repo
          ((bget2 c.Dependencies repo num).getD [])
          (resetDeps repo num (branchStep a repo num b c))
        have hBr2 : (bget2 cpre.Branches repo num).isSome = true := by
          rw [hcpre, fB]
          exact hBr
        have hD2 : bget2 cpre.Dependencies repo num = some [] := by
          rw [hcpre, fAt repo num hBr]
          exact hRD
        obtain ⟨⟨m', hm'⟩, -⟩ := addDeps_pres a repo num toks cpre c2 hnext hBr2 [] hD2
        rw [← ht]
        unfold trigOf
        rw [hm']
        simp [Bool.and_eq_true, beq_iff_eq, Bool.not_eq_true']
    · by_cases hcl : (a == "closed") = true
      · have ha : a = "closed" := by simpa using hcl
        subst ha
        rw [updateCache_eq_closed] at h
        cases hnext : closedDeps repo num
            (closedUnset repo num (branchStep "closed" repo num b c)) toks with
        | none => rw [hnext] at h; exact absurd h (by simp)
        | some c2 =>
          rw [hnext] at h
          simp only [Option.some.injEq, Prod.mk.injEq] at h
          obtain ⟨hc, ht⟩ := h
          rw [← ht]
          constructor
          · intro hfalse
            exact absurd hfalse (by simp)
          · rintro ⟨ha2, -⟩
            exact absurd ha2 (by decide)
      · rw [updateCache_eq_other (by simpa using hoer) (by simpa using hcl)] at h
        simp only [Option.some.injEq, Prod.mk.injEq] at h
        obtain ⟨hc, ht⟩ := h
        subst hc
        rw [← ht]
        have hae : (a == "edited") = false := by
          by_contra hne
          simp only [Bool.not_eq_false] at hne
          exact hoer (oerAction_of_edited hne)
        unfold trigOf
        rw [hae]
        simp only [Bool.false_and]
        constructor
        · intro hfalse
          exact absurd hfalse (by simp)
        · rintro ⟨ha2, -⟩
          subst ha2
          simp at hae

/-- C3 witness: an edited event that adds the edge `svc#1 -> lib#5` fires
the trigger, and the iff instantiates accordingly. -/
theorem updateCache_trigger_iff_witness :
    (updateCache
        { Branches := [("lib", [(5, "bl")]), ("svc", [(1, "bs")])],
          Dependencies := [("svc", [(1, [])])], Dependents := [], Version := "1" }
        "edited" "svc" 1 "bs" ["lib#5"] false =
      some ({ Branches := [("lib", [(5, "bl")]), ("svc", [(1, "bs")])],
              Dependencies := [("svc", [(1, [("lib", 5)])])],
              Dependents := [("lib", [(5, [("svc", 1)])])], Version := "1" }, true)) ∧
    (true = true ↔
      ("edited" = "edited" ∧
        mapEquiv ((bget2
            ({ Branches := [("lib", [(5, "bl")]), ("svc", [(1, "bs")])],
               Dependencies := [("svc", [(1, [])])], Dependents := [],
               Version := "1" } : Cache).Dependencies "svc" 1).getD [])
          ((bget2
            ({ Branches := [("lib", [(5, "bl")]), ("svc", [(1, "bs")])],
               Dependencies := [("svc", [(1, [("lib", 5)])])],
               Dependents := [("lib", [(5, [("svc", 1)])])],
               Version := "1" } : Cache).Dependencies "svc" 1).getD []) = false)) :=
  ⟨by decide,
    updateCache_trigger_iff
      { Branches := [("lib", [(5, "bl")]), ("svc", [(1, "bs")])],
        Dependencies := [("svc", [(1, [])])], Dependents := [], Version := "1" }
      "edited" "svc" 1 "bs" ["lib#5"] false
      { Branches := [("lib", [(5, "bl")]), ("svc", [(1, "bs")])],
        Dependencies := [("svc", [(1, [("lib", 5)])])],
        Dependents := [("lib", [(5, [("svc", 1)])])], Version := "1" } true
      (by decide)⟩

/-- One `updateCache` call preserves outer-key referential integrity,
provided `branchesOnly` is only used with opened/edited/reopened (a
branchesOnly closed call would drop the branch entry while leaving the
edge entries in place). -/
theorem updateCache_OuterRI {c : Cache} {a r : String} {n : Int} {b : String}
    {toks : List String} {bo : Bool} {c' : Cache} {trig : Bool}
    (h : updateCache c a r n b toks bo = some (c', trig))
    (hbo : bo = true → oerAction a = true)
    (hri : OuterRI c) : OuterRI c' := by
  cases bo with
  | true =>
    have hoer := hbo rfl
    rw [updateCache_branchesOnly_eq] at h
    simp only [Option.some.injEq, Prod.mk.injEq] at h
    obtain ⟨hc, -⟩ := h
    subst hc
    intro r' n' hp
    rw [branchStep_Dependencies, branchStep_Dependents] at hp
    rw [branchStep_Branches, if_pos hoer]
    by_cases hk : r' = r ∧ n' = n
    · rw [if_pos hk]
      rfl
    · rw [if_neg hk]
      exact hri r' n' hp
  | false =>
    by_cases hoer : oerAction a = true
    · rw [updateCache_eq_oer hoer] at h
      set cpre := ((bget2 c.Dependencies r n).getD []).foldl (cleanupBefore r)
        (resetDeps r n (branchStep a r n b c)) with hcpre
      cases hnext : addDeps a r n cpre toks with
      | none => rw [hnext] at h; exact absurd h (by simp)
      | some c2 =>
        rw [hnext] at h
        simp only [Option.some.injEq, Prod.mk.injEq] at h
        obtain ⟨hc, -⟩ := h
        subst hc
        have hBr : (bget2 (branchStep a r n b c).Branches r n).isSome = true := by
          rw [branchStep_Branches]
          simp [hoer]
        have hRI1 : OuterRI (branchStep a r n b c) := by
          intro r' n' hp
          rw [branchStep_Dependencies, branchStep_Dependents] at hp
          rw [branchStep_Branches, if_pos hoer]
          by_cases hk : r' = r ∧ n' = n
          · rw [if_pos hk]
            rfl
          · rw [if_neg hk]
            exact hri r' n' hp
        have hRI2 : OuterRI (resetDeps r n (branchStep a r n b c)) := by
          intro r' n' hp
          rcases hp with hp | hp
          · unfold resetDeps at hp
            dsimp only at hp
            rw [bget2_bset2] at hp
            by_cases hk : r' = r ∧ n' = n
            · obtain ⟨e1, e2⟩ := hk
              subst e1
              subst e2
              exact hBr
            · rw [if_neg hk] at hp
              exact hRI1 r' n' (Or.inl hp)
          · exact hRI1 r' n' (Or.inr hp)
        have hRIpre : OuterRI cpre := by
          intro r' n' hp
          obtain ⟨fB, fD, fP, -⟩ := cleanupFold_facts r
            ((bget2 c.Dependencies r n).getD [])
            (resetDeps r n (branchStep a r n b c))
          rw [hcpre]
          rw [fB]
          rw [hcpre] at hp
          rcases hp with hp | hp
          · exact hRI2 r' n' (Or.inl (fD r' n' hp))
          · exact hRI2 r' n' (Or.inr (fP r' n' hp))
        have hBr2 : (bget2 cpre.Branches r n).isSome = true := by
          obtain ⟨fB, -, -, -⟩ := cleanupFold_facts r
            ((bget2 c.Dependencies r n).getD [])
            (resetDeps r n (branchStep a r n b c))
          rw [hcpre, fB]
          exact hBr
        have hD2 : bget2 cpre.Dependencies r n = some [] := by
          obtain ⟨-, -, -, fAt⟩ := cleanupFold_facts r
            ((bget2 c.Dependencies r n).getD [])
            (resetDeps r n (branchStep a r n b c))
          rw [hcpre, fAt r n hBr]
          unfold resetDeps
          dsimp only
          rw [bget2_bset2, if_pos ⟨rfl, rfl⟩]
        obtain ⟨-, hinv⟩ := addDeps_pres a r n toks cpre c2 hnext hBr2 [] hD2
        exact hinv hRIpre
    · by_cases hcl : (a == "closed") = true
      · have ha : a = "closed" := by simpa using hcl
        subst ha
        rw [updateCache_eq_closed] at h
        cases hnext : closedDeps r n
            (closedUnset r n (branchStep "closed" r n b c)) toks with
        | none => rw [hnext] at h; exact absurd h (by simp)
        | some c2 =>
          rw [hnext] at h
          simp only [Option.some.injEq, Prod.mk.injEq] at h
          obtain ⟨hc, -⟩ := h
          subst hc
          have hbs : ∀ r' n', ¬(r' = r ∧ n' = n) →
              bget2 (branchStep "closed" r n b c).Branches r' n' =
                bget2 c.Branches r' n' := by
            intro r' n' hk
            rw [branchStep_Branches]
            rw [if_neg (show ¬(oerAction "closed" = true) by decide)]
            rw [if_pos (show (("closed" : String) == "closed") = true by decide)]
            rw [if_neg hk]
          have hRIcu : OuterRI (closedUnset r n (branchStep "closed" r n b c)) := by
            intro r' n' hp
            rw [closedUnset_Branches]
            rcases hp with hp | hp
            · rw [closedUnset_Dependencies] at hp
              by_cases hk : r' = r ∧ n' = n
              · rw [if_pos hk] at hp
                simp at hp
              · rw [if_neg hk] at hp
                rw [branchStep_Dependencies] at hp
                rw [hbs r' n' hk]
                exact hri r' n' (Or.inl hp)
            · rw [closedUnset_Dependents] at hp
              by_cases hk : r' = r ∧ n' = n
              · rw [if_pos hk] at hp
                simp at hp
              · rw [if_neg hk] at hp
                rw [branchStep_Dependents] at hp
                rw [hbs r' n' hk]
                exact hri r' n' (Or.inr hp)
          intro r' n' hp
          obtain ⟨s1, s2, -⟩ := closedDeps_subs hnext
          rw [closedDeps_branches hnext, closedUnset_Branches,
            ← closedUnset_Branches r n (branchStep "closed" r n b c)]
          rcases hp with hp | hp
          · exact hRIcu r' n' (Or.inl (s1 r' n' hp))
          · exact hRIcu r' n' (Or.inr (s2 r' n' hp))
      · rw [updateCache_eq_other (by simpa using hoer) (by simpa using hcl)] at h
        simp only [Option.some.injEq, Prod.mk.injEq] at h
        obtain ⟨hc, -⟩ := h
        subst hc
        intro r' n' hp
        rw [branchStep_Dependencies, branchStep_Dependents] at hp
        rw [branchStep_Branches]
        rw [if_neg (show ¬(oerAction a = true) by simpa using hoer)]
        rw [if_neg (show ¬((a == "closed") = true) by simpa using hcl)]
        exact hri r' n' hp

/-- Cache states reachable from the empty cache when `branchesOnly` is
only ever combined with opened/edited/reopened actions — the repository's
single `branchesOnly` caller, the bootstrap first pass (src/app.go line
294), always passes `"opened"`. -/
inductive ReachableBO : Cache → Prop where
  | empty : ReachableBO emptyCache
  | step {c : Cache} {a r : String} {n : Int} {b : String} {deps : List String}
      {bo : Bool} {c' : Cache} {trig : Bool} :
      ReachableBO c → updateCache c a r n b deps bo = some (c', trig) →
      (bo = true → oerAction a = true) → ReachableBO c'

theorem reachableBO_OuterRI {c : Cache} (h : ReachableBO c) : OuterRI c := by
  induction h with
  | empty =>
    intro r' n' hp'
    rcases hp' with hp' | hp' <;> simp [emptyCache, bget2, mget] at hp'
  | step hprev hu hbo ih => exact updateCache_OuterRI hu hbo ih

/-- C2 (amended): outer-key referential integrity.  In every cache state
reachable from the empty cache by completed `updateCache` calls that pair
`branchesOnly` only with opened/edited/reopened (as the bootstrap does),
every `(r, n)` carrying an outer `Dependencies[r][n]` or
`Dependents[r][n]` entry has a `BranchIndex[r][n]` entry.  Inner target
entries are exempt: they can dangle until the next update touches them,
as the counterexample theorem shows. -/
theorem reachable_outer_referential_integrity {c : Cache}
    (h : ReachableBO c) (r : String) (n : Int)
    (hp : (bget2 c.Dependencies r n).isSome = true ∨
          (bget2 c.Dependents r n).isSome = true) :
    (bget2 c.Branches r n).isSome = true :=
  reachableBO_OuterRI h r n hp

/-- C2 amended witness: after `opened lib#5` from the empty cache, the
outer `Dependencies["lib"][5]` entry is backed by a branch entry. -/
theorem reachable_outer_referential_integrity_witness :
    ((bget2 ({ Branches := [("lib", [(5, "b")])],
               Dependencies := [("lib", [(5, [])])],
               Dependents := [], Version := "1" } : Cache).Dependencies "lib" 5).isSome = true ∨
     (bget2 ({ Branches := [("lib", [(5, "b")])],
               Dependencies := [("lib", [(5, [])])],
               Dependents := [], Version := "1" } : Cache).Dependents "lib" 5).isSome = true) ∧
    (bget2 ({ Branches := [("lib", [(5, "b")])],
              Dependencies := [("lib", [(5, [])])],
              Dependents := [], Version := "1" } : Cache).Branches "lib" 5).isSome = true :=
  ⟨Or.inl (by decide),
    reachable_outer_referential_integrity
      (ReachableBO.step ReachableBO.empty
        (show updateCache emptyCache "opened" "lib" 5 "b" [] false =
          some ({ Branches := [("lib", [(5, "b")])],
                  Dependencies := [("lib", [(5, [])])],
                  Dependents := [], Version := "1" }, false) by decide)
        (fun hh => absurd hh (by decide)))
      "lib" 5 (Or.inl (by decide))⟩

/-- Tokens whose target repository differs from `t0` leave every
`t0`-indexed read unchanged (and the key-`t0` slot of
`Dependencies[repo][num]`). -/
theorem addDeps_frame (a repo : String) (num : Int) (toks : List String) :
    ∀ (c c' : Cache) (m : GMap String Int),
    addDeps a repo num c toks = some c' →
    (bget2 c.Branches repo num).isSome = true →
    bget2 c.Dependencies repo num = some m →
    ∀ t0 : String,
      t0 ∉ ((toks.filterMap fun d => (parseToken d).bind id).map Prod.fst) →
      bget3 c'.Dependencies repo num t0 = bget3 c.Dependencies repo num t0 ∧
      (∀ n', ¬(t0 = repo ∧ n' = num) →
        bget2 c'.Dependencies t0 n' = bget2 c.Dependencies t0 n') ∧
      (∀ n', bget2 c'.Dependents t0 n' = bget2 c.Dependents t0 n') := by
  induction toks with
  | nil =>
    intro c c' m h hB hm t0 hnin
    simp only [addDeps, Option.some.injEq] at h
    rw [← h]
    exact ⟨rfl, fun _ _ => rfl, fun _ => rfl⟩
  | cons d rest ih =>
    intro c c' m h hB hm t0 hnin
    rw [addDeps] at h
    cases hd : addDep a repo num c d with
    | none => rw [hd] at h; exact absurd h (by simp)
    | some c1 =>
      rw [hd] at h
      cases hp : parseToken d with
      | none => rw [addDep_panic a repo num c d hp] at hd; exact absurd hd (by simp)
      | some o =>
        cases o with
        | none =>
          rw [addDep_skip a repo num c d hp] at hd
          simp only [Option.some.injEq] at hd
          rw [← hd] at h
          refine ih c c' m h hB hm t0 ?_
          have hcons : (d :: rest).filterMap (fun x => (parseToken x).bind id) =
              rest.filterMap (fun x => (parseToken x).bind id) := by
            rw [List.filterMap_cons, hp]
            rfl
          rwa [hcons] at hnin
        | some ti =>
          obtain ⟨t1, i1⟩ := ti
          have hcons : (d :: rest).filterMap (fun x => (parseToken x).bind id) =
              (t1, i1) :: rest.filterMap (fun x => (parseToken x).bind id) := by
            rw [List.filterMap_cons, hp]
            rfl
          rw [hcons] at hnin
          simp only [List.map_cons, List.mem_cons, not_or] at hnin
          obtain ⟨hne10, hnin'⟩ := hnin
          by_cases hlive : (bget2 c.Branches t1 i1).isSome = true
          · obtain ⟨m1, hm1, hm2⟩ := bget2_eq_some_elim hm
            by_cases hoer : oerAction a = true
            · obtain ⟨c1', hc1', hbr, hdep, hdpt⟩ :=
                addDep_live a repo num c d t1 i1 m1 m hp hoer hlive hm1 hm2
              rw [hc1'] at hd
              simp only [Option.some.injEq] at hd
              rw [← hd] at h
              have hB1 : (bget2 c1'.Branches repo num).isSome = true := by
                rw [hbr]; exact hB
              have hm' : bget2 c1'.Dependencies repo num = some (mset m t1 i1) := by
                rw [hdep repo num, if_pos ⟨rfl, rfl⟩]
              obtain ⟨A, B, C⟩ := ih c1' c' (mset m t1 i1) h hB1 hm' t0 hnin'
              refine ⟨?_, ?_, ?_⟩
              · rw [A]
                unfold bget3
                rw [hm', hm]
                simp only [Option.some_bind]
                rw [mget_mset, if_neg hne10]
              · intro n' hn'
                rw [B n' hn', hdep t0 n', if_neg hn']
              · intro n'
                rw [C n', hdpt t0 n', if_neg (fun hc => hne10 hc.1)]
            · have heq : addDep a repo num c d = some c := by
                unfold addDep
                rw [hp]
                dsimp only
                rw [hlive]
                simp only [if_true]
                rw [if_neg hoer]
              rw [heq] at hd
              simp only [Option.some.injEq] at hd
              rw [← hd] at h
              exact ih c c' m h hB hm t0 hnin'
          · have hstale : (bget2 c.Branches t1 i1).isSome = false := by
              simpa using hlive
            obtain ⟨c1', hc1', hbr, hdep, hdpt⟩ :=
              addDep_stale a repo num c d t1 i1 hp hstale
            rw [hc1'] at hd
            simp only [Option.some.injEq] at hd
            rw [← hd] at h
            have hne : ¬(repo = t1 ∧ num = i1) := by
              rintro ⟨e1, e2⟩
              subst e1
              subst e2
              rw [hB] at hstale
              exact absurd hstale (by simp)
            have hB1 : (bget2 c1'.Branches repo num).isSome = true := by
              rw [hbr]; exact hB
            have hm'' : bget2 c1'.Dependencies repo num = some m := by
              rw [hdep repo num, if_neg hne]
              exact hm
            obtain ⟨A, B, C⟩ := ih c1' c' m h hB1 hm'' t0 hnin'
            refine ⟨?_, ?_, ?_⟩
            · rw [A]
              unfold bget3
              rw [hm'', hm]
            · intro n' hn'
              rw [B n' hn', hdep t0 n', if_neg (fun hc => hne10 hc.1)]
            · intro n'
              rw [C n', hdpt t0 n', if_neg (fun hc => hne10 hc.1)]

/-- Per-token postcondition of the opened/edited/reopened token loop when
the parsable tokens have pairwise-distinct target repositories: a live
target gets both edges, a stale target is purged and contributes no
forward entry. -/
theorem addDeps_sound (a repo : String) (num : Int) (toks : List String) :
    ∀ (c c' : Cache) (m : GMap String Int),
    addDeps a repo num c toks = some c' →
    oerAction a = true →
    (bget2 c.Branches repo num).isSome = true →
    bget2 c.Dependencies repo num = some m →
    ((toks.filterMap fun x => (parseToken x).bind id).map Prod.fst).Nodup →
    ∀ t i, (t, i) ∈ toks.filterMap (fun x => (parseToken x).bind id) →
      (((bget2 c.Branches t i).isSome = true →
          bget3 c'.Dependencies repo num t = some i ∧
          bget3 c'.Dependents t i repo = some num) ∧
       ((bget2 c.Branches t i).isSome = false →
          (mget m t = none → bget3 c'.Dependencies repo num t = none) ∧
          bget2 c'.Dependencies t i = none ∧
          bget2 c'.Dependents t i = none)) := by
  induction toks with
  | nil =>
    intro c c' m h hoer hB hm hnd t i hmem
    simp at hmem
  | cons d rest ih =>
    intro c c' m h hoer hB hm hnd t i hmem
    rw [addDeps] at h
    cases hd : addDep a repo num c d with
    | none => rw [hd] at h; exact absurd h (by simp)
    | some c1 =>
      rw [hd] at h
      cases hp : parseToken d with
      | none => rw [addDep_panic a repo num c d hp] at hd; exact absurd hd (by simp)
      | some o =>
        cases o with
        | none =>
          rw [addDep_skip a repo num c d hp] at hd
          simp only [Option.some.injEq] at hd
          rw [← hd] at h
          have hcons : (d :: rest).filterMap (fun x => (parseToken x).bind id) =
              rest.filterMap (fun x => (parseToken x).bind id) := by
            rw [List.filterMap_cons, hp]
            rfl
          rw [hcons] at hmem hnd
          exact ih c c' m h hoer hB hm hnd t i hmem
        | some ti =>
          obtain ⟨t1, i1⟩ := ti
          have hcons : (d :: rest).filterMap (fun x => (parseToken x).bind id) =
              (t1, i1) :: rest.filterMap (fun x => (parseToken x).bind id) := by
            rw [List.filterMap_cons, hp]
            rfl
          rw [hcons] at hmem hnd
          simp only [List.map_cons, List.nodup_cons] at hnd
          obtain ⟨hnd1, hnd2⟩ := hnd
          by_cases hlive : (bget2 c.Branches t1 i1).isSome = true
          · obtain ⟨m1, hm1, hm2⟩ := bget2_eq_some_elim hm
            obtain ⟨c1', hc1', hbr, hdep, hdpt⟩ :=
              addDep_live a repo num c d t1 i1 m1 m hp hoer hlive hm1 hm2
            rw [hc1'] at hd
            simp only [Option.some.injEq] at hd
            rw [← hd] at h
            have hB1 : (bget2 c1'.Branches repo num).isSome = true := by
              rw [hbr]; exact hB
            have hm' : bget2 c1'.Dependencies repo num = some (mset m t1 i1) := by
              rw [hdep repo num, if_pos ⟨rfl, rfl⟩]
            rcases List.mem_cons.mp hmem with heq | hmem'
            · injection heq with e1 e2
              subst e1
              subst e2
              obtain ⟨A, B, C⟩ :=
                addDeps_frame a repo num rest c1' c' (mset m t i) h hB1 hm' t hnd1
              constructor
              · intro hlv
                constructor
                · rw [A]
                  unfold bget3
                  rw [hm']
                  simp only [Option.some_bind]
                  rw [mget_mset, if_pos rfl]
                · have hdd : bget2 c1'.Dependents t i =
                      some (mset ((bget2 c.Dependents t i).getD []) repo num) := by
                    rw [hdpt t i, if_pos ⟨rfl, rfl⟩]
                  unfold bget3
                  rw [C i, hdd]
                  simp only [Option.some_bind]
                  rw [mget_mset, if_pos rfl]
              · intro hstale2
                rw [hlive] at hstale2
                exact absurd hstale2 (by decide)
            · have hne : t ≠ t1 := by
                intro e
                subst e
                exact hnd1 (List.mem_map_of_mem Prod.fst hmem')
              have hstep := ih c1' c' (mset m t1 i1) h hoer hB1 hm' hnd2 t i hmem'
              constructor
              · intro hlv
                exact hstep.1 (by rw [hbr]; exact hlv)
              · intro hst
                have hres := hstep.2 (by rw [hbr]; exact hst)
                refine ⟨fun hmt => hres.1 ?_, hres.2.1, hres.2.2⟩
                rw [mget_mset, if_neg hne]
                exact hmt
          · have hstale : (bget2 c.Branches t1 i1).isSome = false := by
              simpa using hlive
            obtain ⟨c1', hc1', hbr, hdep, hdpt⟩ :=
              addDep_stale a repo num c d t1 i1 hp hstale
            rw [hc1'] at hd
            simp only [Option.some.injEq] at hd
            rw [← hd] at h
            have hneR : ¬(repo = t1 ∧ num = i1) := by
              rintro ⟨e1, e2⟩
              subst e1
              subst e2
              rw [hB] at hstale
              exact absurd hstale (by simp)
            have hB1 : (bget2 c1'.Branches repo num).isSome = true := by
              rw [hbr]; exact hB
            have hm'' : bget2 c1'.Dependencies repo num = some m := by
              rw [hdep repo num, if_neg hneR]
              exact hm
            rcases List.mem_cons.mp hmem with heq | hmem'
            · injection heq with e1 e2
              subst e1
              subst e2
              constructor
              · intro hlv
                rw [hlv] at hstale
                exact absurd hstale (by decide)
              · intro hst2
                obtain ⟨A, B, C⟩ :=
                  addDeps_frame a repo num rest c1' c' m h hB1 hm'' t hnd1
                refine ⟨fun hmt => ?_, ?_, ?_⟩
                · rw [A]
                  unfold bget3
                  rw [hm'']
                  simp only [Option.some_bind]
                  exact hmt
                · rw [B i (fun hc => hneR ⟨hc.1.symm, hc.2.symm⟩)]
                  rw [hdep t i, if_pos ⟨rfl, rfl⟩]
                · rw [C i, hdpt t i, if_pos ⟨rfl, rfl⟩]
            · have hne : t ≠ t1 := by
                intro e
                subst e
                exact hnd1 (List.mem_map_of_mem Prod.fst hmem')
              have hstep := ih c1' c' m h hoer hB1 hm'' hnd2 t i hmem'
              constructor
              · intro hlv
                exact hstep.1 (by rw [hbr]; exact hlv)
              · intro hst
                have hres := hstep.2 (by rw [hbr]; exact hst)
                exact ⟨hres.1, hres.2.1, hres.2.2⟩

/-- C5 (amended): stale-target drop, for token lists whose parsable
tokens have pairwise-distinct target repositories (two tokens sharing a
target repository overwrite each other's forward slot, see the
counterexample theorem).  For every parsable `(t, i)` in the list of an
opened/edited/reopened event: if `BranchIndex[t][i]` is absent after the
update, `Dependencies[repo][num]` has no entry for `t` and any
`Dependencies[t][i]` / `Dependents[t][i]` entries are purged; if it is
present, `Dependencies[repo][num][t] == i` and
`Dependents[t][i][repo] == num`. -/
theorem updateCache_stale_target_drop_distinct (c : Cache) (a repo : String)
    (num : Int) (b : String) (toks : List String) (c' : Cache) (trig : Bool)
    (t : String) (i : Int)
    (hoer : oerAction a = true)
    (h : updateCache c a repo num b toks false = some (c', trig))
    (hnd : ((toks.filterMap fun x => (parseToken x).bind id).map Prod.fst).Nodup)
    (hmem : (t, i) ∈ toks.filterMap (fun x => (parseToken x).bind id)) :
    ((bget2 c'.Branches t i).isSome = true →
        bget3 c'.Dependencies repo num t = some i ∧
        bget3 c'.Dependents t i repo = some num) ∧
    ((bget2 c'.Branches t i).isSome = false →
        bget3 c'.Dependencies repo num t = none ∧
        bget2 c'.Dependencies t i = none ∧
        bget2 c'.Dependents t i = none) := by
  rw [updateCache_eq_oer hoer] at h
  set cpre := ((bget2 c.Dependencies repo num).getD []).foldl (cleanupBefore repo)
    (resetDeps repo num (branchStep a repo num b c)) with hcpre
  cases hnext : addDeps a repo num cpre toks with
  | none => rw [hnext] at h; exact absurd h (by simp)
  | some c2 =>
    rw [hnext] at h
    simp only [Option.some.injEq, Prod.mk.injEq] at h
    obtain ⟨hc, -⟩ := h
    subst hc
    have hBr : (bget2 (branchStep a repo num b c).Branches repo num).isSome = true := by
      rw [branchStep_Branches]
      simp [hoer]
    obtain ⟨fB, -, -, fAt⟩ := cleanupFold_facts repo
      ((bget2 c.Dependencies repo num).getD [])
      (resetDeps repo num (branchStep a repo num b c))
    have hBr2 : (bget2 cpre.Branches repo num).isSome = true := by
      rw [hcpre, fB]
      exact hBr
    have hD2 : bget2 cpre.Dependencies repo num = some [] := by
      rw [hcpre, fAt repo num hBr]
      unfold resetDeps
      dsimp only
      rw [bget2_bset2, if_pos ⟨rfl, rfl⟩]
    have hbp : c2.Branches = cpre.Branches := addDeps_branches hnext
    have hsound := addDeps_sound a repo num toks cpre c2 [] hnext hoer hBr2 hD2 hnd t i hmem
    constructor
    · intro hlv
      exact hsound.1 (by rw [← hbp]; exact hlv)
    · intro hst
      have hres := hsound.2 (by rw [← hbp]; exact hst)
      exact ⟨hres.1 rfl, hres.2.1, hres.2.2⟩

/-- C5 amended witness: opening `svc#1` with the single live token
`lib#5`. -/
theorem updateCache_stale_target_drop_distinct_witness :
    (oerAction "opened" = true) ∧
    (updateCache
        { Branches := [("lib", [(5, "bl")])], Dependencies := [], Dependents := [],
          Version := "1" } "opened" "svc" 1 "bs" ["lib#5"] false =
      some ({ Branches := [("lib", [(5, "bl")]), ("svc", [(1, "bs")])],
              Dependencies := [("svc", [(1, [("lib", 5)])])],
              Dependents := [("lib", [(5, [("svc", 1)])])], Version := "1" }, false)) ∧
    (((["lib#5"].filterMap fun x => (parseToken x).bind id).map Prod.fst).Nodup) ∧
    (("lib", (5 : Int)) ∈ ["lib#5"].filterMap (fun x => (parseToken x).bind id)) ∧
    (((bget2 ({ Branches := [("lib", [(5, "bl")]), ("svc", [(1, "bs")])],
                Dependencies := [("svc", [(1, [("lib", 5)])])],
                Dependents := [("lib", [(5, [("svc", 1)])])],
                Version := "1" } : Cache).Branches "lib" 5).isSome = true →
        bget3 ({ Branches := [("lib", [(5, "bl")]), ("svc", [(1, "bs")])],
                 Dependencies := [("svc", [(1, [("lib", 5)])])],
                 Dependents := [("lib", [(5, [("svc", 1)])])],
                 Version := "1" } : Cache).Dependencies "svc" 1 "lib" = some 5 ∧
        bget3 ({ Branches := [("lib", [(5, "bl")]), ("svc", [(1, "bs")])],
                 Dependencies := [("svc", [(1, [("lib", 5)])])],
                 Dependents := [("lib", [(5, [("svc", 1)])])],
                 Version := "1" } : Cache).Dependents "lib" 5 "svc" = some 1) ∧
     ((bget2 ({ Branches := [("lib", [(5, "bl")]), ("svc", [(1, "bs")])],
                Dependencies := [("svc", [(1, [("lib", 5)])])],
                Dependents := [("lib", [(5, [("svc", 1)])])],
                Version := "1" } : Cache).Branches "lib" 5).isSome = false →
        bget3 ({ Branches := [("lib", [(5, "bl")]), ("svc", [(1, "bs")])],
                 Dependencies := [("svc", [(1, [("lib", 5)])])],
                 Dependents := [("lib", [(5, [("svc", 1)])])],
                 Version := "1" } : Cache).Dependencies "svc" 1 "lib" = none ∧
        bget2 ({ Branches := [("lib", [(5, "bl")]), ("svc", [(1, "bs")])],
                 Dependencies := [("svc", [(1, [("lib", 5)])])],
                 Dependents := [("lib", [(5, [("svc", 1)])])],
                 Version := "1" } : Cache).Dependencies "lib" 5 = none ∧
        bget2 ({ Branches := [("lib", [(5, "bl")]), ("svc", [(1, "bs")])],
                 Dependencies := [("svc", [(1, [("lib", 5)])])],
                 Dependents := [("lib", [(5, [("svc", 1)])])],
                 Version := "1" } : Cache).Dependents "lib" 5 = none)) :=
  ⟨by decide, by decide, by decide, by decide,
    updateCache_stale_target_drop_distinct
      { Branches := [("lib", [(5, "bl")])], Dependencies := [], Dependents := [],
        Version := "1" } "opened" "svc" 1 "bs" ["lib#5"]
      { Branches := [("lib", [(5, "bl")]), ("svc", [(1, "bs")])],
        Dependencies := [("svc", [(1, [("lib", 5)])])],
        Dependents := [("lib", [(5, [("svc", 1)])])], Version := "1" } false
      "lib" 5 (by decide) (by decide) (by decide) (by decide)⟩
